import Mathlib

/-
Verification of the asymmetric-encryption core of the Courses repository
(src/Projects/WebApp/UI/src/services/AsymmetricEncryption.ts and
src/Projects/WebApp/UI/src/contexts/ServicesContext/ServicesContext.tsx).

The TypeScript source is a thin wrapper over the Web Crypto API
(crypto.subtle with RSA-OAEP / SHA-256), the HTML Base64 helpers
btoa / atob, and TextEncoder / TextDecoder.  The wrapper itself is
embedded line by line; the platform primitives it calls are modelled
from their governing standards: RSAES-OAEP exactly as in RFC 8017
section 7.1 (with the OAEP random seed made an explicit argument and
the SHA-256 digest an explicit function argument), btoa / atob as the
WHATWG forgiving-base64 algorithms, TextEncoder as UTF-8 encoding of
Unicode scalar values, and TextDecoder (in its default, non-fatal
mode, which is what the source constructs) as the WHATWG UTF-8
decoder with U+FFFD replacement.

Machine integers do not occur: everything is bytes (Nat < 256) and
unbounded Nat arithmetic, matching the arbitrary-precision integers
underlying RSA.
-/

set_option maxRecDepth 1000000
set_option maxHeartbeats 4000000

set_option exponentiation.threshold 70000

/-- Byte strings: the model of ArrayBuffer / Uint8Array contents.
A value is a genuine byte string when every entry is below 256. -/
abbrev Bytes := List Nat

/-- Every entry of the list is a byte value. -/
def IsBytes (bs : Bytes) : Prop := ∀ b ∈ bs, b < 256

instance : DecidablePred IsBytes := fun bs =>
  inferInstanceAs (Decidable (∀ b ∈ bs, b < 256))

/-- Bit length of a natural number, computed with a fixed 64-level
binary-chunk recursion so that it reduces fast inside the kernel.
Exact for every number below 2 ^ (2 ^ 64). -/
def bitLenAux : Nat → Nat → Nat :=
  Nat.rec (fun e => if e = 0 then 0 else 1)
    (fun k ih e => if e >>> (2 ^ k) = 0 then ih e else ih (e >>> (2 ^ k)) + 2 ^ k)

/-- Bit length of a natural number (0 for 0). -/
def bitLen (e : Nat) : Nat := bitLenAux 64 e

/-- Octet length of a natural number; the model of the modulus length
in bytes that RSAES-OAEP calls k. -/
def byteLength (n : Nat) : Nat := (bitLen n + 7) / 8

/-- Modular exponentiation, consuming the exponent in 8-bit chunks so
that concrete 2048-bit RSA computations reduce inside the kernel.
This is the model of the bignum exponentiation performed by the Web
Crypto provider for RSAEP and RSADP (RFC 8017 sections 5.1.1/5.1.2). -/
def powModAux : Nat → Nat → Nat → Nat → Nat :=
  Nat.rec (fun _ _ n => 1 % n)
    (fun _ ih b e n =>
      if e = 0 then 1 % n
      else (b ^ (e % 256) % n * ih ((b ^ 256) % n) (e / 256) n) % n)

/-- Modular exponentiation: powMod b e n computes b ^ e mod n. -/
def powMod (b e n : Nat) : Nat := powModAux (bitLen e / 8 + 1) b e n

theorem powModAux_succ (f b e n : Nat) :
    powModAux (f + 1) b e n =
      if e = 0 then 1 % n
      else (b ^ (e % 256) % n * powModAux f ((b ^ 256) % n) (e / 256) n) % n := rfl

theorem powMod_lt (b e n : Nat) (hn : 0 < n) : powMod b e n < n := by
  unfold powMod
  rw [powModAux_succ]
  split
  · exact Nat.mod_lt _ hn
  · exact Nat.mod_lt _ hn

/-- OS2IP (RFC 8017 section 4.2): big-endian interpretation of a byte
string as a natural number. -/
def os2ip (bs : Bytes) : Nat := bs.foldl (fun acc b => acc * 256 + b) 0

/-- I2OSP (RFC 8017 section 4.1): big-endian encoding of a natural
number as a byte string of exactly k octets (truncating modulo
256 ^ k, which never happens on the inputs the model feeds it). -/
def i2osp (v : Nat) : Nat → Bytes
  | 0 => []
  | k + 1 => i2osp (v / 256) k ++ [v % 256]

theorem length_i2osp (v k : Nat) : (i2osp v k).length = k := by
  induction k generalizing v with
  | zero => rfl
  | succ k ih => simp [i2osp, ih]

theorem isBytes_i2osp (v k : Nat) : IsBytes (i2osp v k) := by
  induction k generalizing v with
  | zero => intro b hb; simp [i2osp] at hb
  | succ k ih =>
    intro b hb
    simp only [i2osp, List.mem_append, List.mem_singleton] at hb
    rcases hb with hb | hb
    · exact ih _ _ hb
    · subst hb; exact Nat.mod_lt _ (by norm_num)

theorem os2ip_go (bs : Bytes) (acc : Nat) :
    bs.foldl (fun a b => a * 256 + b) acc =
      acc * 256 ^ bs.length + os2ip bs := by
  induction bs generalizing acc with
  | nil => simp [os2ip]
  | cons b r ih =>
    simp only [List.foldl_cons, os2ip, List.length_cons]
    rw [ih (acc * 256 + b), ih (0 * 256 + b)]
    ring

theorem os2ip_cons (b : Nat) (r : Bytes) :
    os2ip (b :: r) = b * 256 ^ r.length + os2ip r := by
  simpa [os2ip] using os2ip_go r b

theorem os2ip_append (a b : Bytes) :
    os2ip (a ++ b) = os2ip a * 256 ^ b.length + os2ip b := by
  simpa [os2ip] using os2ip_go b (os2ip a)

theorem os2ip_concat (a : Bytes) (b : Nat) :
    os2ip (a ++ [b]) = os2ip a * 256 + b := by
  simp [os2ip_append, os2ip]

theorem os2ip_lt (bs : Bytes) (h : IsBytes bs) : os2ip bs < 256 ^ bs.length := by
  induction bs with
  | nil => simp [os2ip]
  | cons b r ih =>
    rw [os2ip_cons]
    have hb : b < 256 := h b (List.mem_cons_self _ _)
    have hr : os2ip r < 256 ^ r.length := ih (fun x hx => h x (List.mem_cons_of_mem _ hx))
    calc b * 256 ^ r.length + os2ip r
        < b * 256 ^ r.length + 256 ^ r.length := by omega
      _ = (b + 1) * 256 ^ r.length := by ring
      _ ≤ 256 * 256 ^ r.length := by
          have : b + 1 ≤ 256 := hb
          exact Nat.mul_le_mul_right _ this
      _ = 256 ^ (r.length + 1) := by ring

theorem os2ip_i2osp (v k : Nat) (h : v < 256 ^ k) : os2ip (i2osp v k) = v := by
  induction k generalizing v with
  | zero => simp [i2osp, os2ip]; omega
  | succ k ih =>
    simp only [i2osp]
    rw [os2ip_concat, ih (v / 256) (by
      have : 256 ^ (k + 1) = 256 ^ k * 256 := by ring
      omega)]
    omega

theorem i2osp_os2ip (bs : Bytes) (h : IsBytes bs) : i2osp (os2ip bs) bs.length = bs := by
  induction bs using List.reverseRecOn with
  | nil => rfl
  | append_singleton a b ih =>
    have hb : b < 256 := h b (by simp)
    have ha : IsBytes a := fun x hx => h x (by simp [hx])
    rw [os2ip_concat]
    simp only [List.length_append, List.length_singleton]
    show i2osp (os2ip a * 256 + b) (a.length + 1) = a ++ [b]
    simp only [i2osp]
    have h1 : (os2ip a * 256 + b) / 256 = os2ip a := by omega
    have h2 : (os2ip a * 256 + b) % 256 = b := by omega
    rw [h1, h2, ih ha]

theorem os2ip_inj (a b : Bytes) (ha : IsBytes a) (hb : IsBytes b)
    (hl : a.length = b.length) (h : os2ip a = os2ip b) : a = b := by
  have := i2osp_os2ip a ha
  rw [h, hl, i2osp_os2ip b hb] at this
  exact this.symm

/-- Pointwise XOR of two byte strings, truncated to the shorter one;
the masking operation of EME-OAEP. -/
def xorBytes (a b : Bytes) : Bytes := List.zipWith (fun x y => x ^^^ y) a b

theorem length_xorBytes (a b : Bytes) :
    (xorBytes a b).length = min a.length b.length := by
  simp [xorBytes]

theorem xorBytes_cancel (a b : Bytes) (h : a.length ≤ b.length) :
    xorBytes (xorBytes a b) b = a := by
  induction a generalizing b with
  | nil => simp [xorBytes]
  | cons x xs ih =>
    cases b with
    | nil => simp at h
    | cons y ys =>
      simp only [xorBytes, List.zipWith_cons_cons]
      rw [Nat.xor_cancel_right]
      have := ih ys (by simpa using h)
      simp only [xorBytes] at this
      simp [this]

theorem xorBytes_left_inj (a b m : Bytes) (ha : a.length ≤ m.length)
    (hb : b.length ≤ m.length) (h : xorBytes a m = xorBytes b m) : a = b := by
  have h1 := xorBytes_cancel a m ha
  have h2 := xorBytes_cancel b m hb
  rw [← h1, ← h2, h]

theorem isBytes_xorBytes (a : Bytes) :
    ∀ b : Bytes, IsBytes a → IsBytes b → IsBytes (xorBytes a b) := by
  induction a with
  | nil => intro b _ _ x hx; simp [xorBytes] at hx
  | cons x xs ih =>
    intro b ha hb
    cases b with
    | nil => intro z hz; simp [xorBytes] at hz
    | cons y ys =>
      intro z hz
      simp only [xorBytes, List.zipWith_cons_cons, List.mem_cons] at hz
      rcases hz with hz | hz
      · subst hz
        have hx : x < 256 := ha x (List.mem_cons_self _ _)
        have hy : y < 256 := hb y (List.mem_cons_self _ _)
        exact Nat.xor_lt_two_pow (n := 8) hx hy
      · exact ih ys (fun w hw => ha w (List.mem_cons_of_mem _ hw))
          (fun w hw => hb w (List.mem_cons_of_mem _ hw)) z hz

/-- The hash function is a 32-byte (SHA-256 sized) digest.  The real
SHA-256 implementation lives inside the cryptographic provider; every
theorem below holds for an arbitrary digest function of this shape. -/
def GoodHash (hash : Bytes → Bytes) : Prop :=
  ∀ x, (hash x).length = 32 ∧ IsBytes (hash x)

/-- MGF1 (RFC 8017 appendix B.2.1) with a 32-byte hash: concatenate
hash(seed ∥ counter) blocks and truncate to the requested length. -/
def mgf1 (hash : Bytes → Bytes) (seed : Bytes) (len : Nat) : Bytes :=
  (((List.range (len / 32 + 1)).map (fun i => hash (seed ++ i2osp i 4))).flatten).take len

theorem sum_map_const_32 (l : List Nat) (g : Nat → Nat)
    (h : ∀ i ∈ l, g i = 32) : (l.map g).sum = 32 * l.length := by
  induction l with
  | nil => simp
  | cons x xs ih =>
    simp only [List.map_cons, List.sum_cons, List.length_cons]
    rw [h x (List.mem_cons_self _ _), ih (fun i hi => h i (List.mem_cons_of_mem _ hi))]
    ring

theorem length_mgf1 (hash : Bytes → Bytes) (hh : GoodHash hash)
    (seed : Bytes) (len : Nat) : (mgf1 hash seed len).length = len := by
  unfold mgf1
  rw [List.length_take, List.length_flatten, List.map_map]
  simp only [Function.comp_def]
  rw [sum_map_const_32 (List.range (len / 32 + 1)) _
    (fun i _ => (hh (seed ++ i2osp i 4)).1)]
  rw [List.length_range]
  have := Nat.div_mul_le_self len 32
  omega

theorem isBytes_mgf1 (hash : Bytes → Bytes) (hh : GoodHash hash)
    (seed : Bytes) (len : Nat) : IsBytes (mgf1 hash seed len) := by
  intro b hb
  unfold mgf1 at hb
  have hb2 := List.mem_of_mem_take hb
  rw [List.mem_flatten] at hb2
  obtain ⟨blk, hblk, hbin⟩ := hb2
  rw [List.mem_map] at hblk
  obtain ⟨i, _, hi⟩ := hblk
  subst hi
  exact (hh (seed ++ i2osp i 4)).2 b hbin

/-- A Unicode scalar value: what TextEncoder feeds the UTF-8 encoder
(surrogate code points never reach it). -/
def IsUSV (c : Nat) : Prop := c < 1114112 ∧ (c < 55296 ∨ 57343 < c)

instance : DecidablePred IsUSV := fun _ =>
  inferInstanceAs (Decidable (_ ∧ _))

/-- UTF-8 encoding of one scalar value. -/
def utf8EncodeChar (c : Nat) : Bytes :=
  if c < 128 then [c]
  else if c < 2048 then [192 + c / 64, 128 + c % 64]
  else if c < 65536 then [224 + c / 4096, 128 + c / 64 % 64, 128 + c % 64]
  else [240 + c / 262144, 128 + c / 4096 % 64, 128 + c / 64 % 64, 128 + c % 64]

/-- Model of TextEncoder.encode: the UTF-8 bytes of a string of
Unicode scalar values. -/
def utf8Encode (s : List Nat) : Bytes := (s.map utf8EncodeChar).flatten

theorem utf8Encode_cons (c : Nat) (s : List Nat) :
    utf8Encode (c :: s) = utf8EncodeChar c ++ utf8Encode s := by
  simp [utf8Encode]

/-- Model of TextDecoder.decode in its default (non-fatal) mode: the
WHATWG UTF-8 decoder with replacement, which emits U+FFFD (65533) at
every error and never throws. -/
def utf8DecodeReplace : Bytes → List Nat
  | [] => []
  | b :: bs =>
    if b < 128 then b :: utf8DecodeReplace bs
    else if b < 194 then 65533 :: utf8DecodeReplace bs
    else if b < 224 then
      match bs with
      | [] => [65533]
      | b1 :: bs1 =>
        if 128 ≤ b1 ∧ b1 < 192 then
          ((b - 192) * 64 + (b1 - 128)) :: utf8DecodeReplace bs1
        else 65533 :: utf8DecodeReplace (b1 :: bs1)
    else if b < 240 then
      match bs with
      | [] => [65533]
      | b1 :: bs1 =>
        if (if b = 224 then 160 else 128) ≤ b1 ∧
            b1 ≤ (if b = 237 then 159 else 191) then
          match bs1 with
          | [] => [65533]
          | b2 :: bs2 =>
            if 128 ≤ b2 ∧ b2 < 192 then
              ((b - 224) * 4096 + (b1 - 128) * 64 + (b2 - 128)) ::
                utf8DecodeReplace bs2
            else 65533 :: utf8DecodeReplace (b2 :: bs2)
        else 65533 :: utf8DecodeReplace (b1 :: bs1)
    else if b < 245 then
      match bs with
      | [] => [65533]
      | b1 :: bs1 =>
        if (if b = 240 then 144 else 128) ≤ b1 ∧
            b1 ≤ (if b = 244 then 143 else 191) then
          match bs1 with
          | [] => [65533]
          | b2 :: bs2 =>
            if 128 ≤ b2 ∧ b2 < 192 then
              match bs2 with
              | [] => [65533]
              | b3 :: bs3 =>
                if 128 ≤ b3 ∧ b3 < 192 then
                  ((b - 240) * 262144 + (b1 - 128) * 4096 +
                    (b2 - 128) * 64 + (b3 - 128)) :: utf8DecodeReplace bs3
                else 65533 :: utf8DecodeReplace (b3 :: bs3)
            else 65533 :: utf8DecodeReplace (b2 :: bs2)
        else 65533 :: utf8DecodeReplace (b1 :: bs1)
    else 65533 :: utf8DecodeReplace bs

theorem isBytes_utf8EncodeChar (c : Nat) (h : c < 1114112) :
    IsBytes (utf8EncodeChar c) := by
  intro b hb
  unfold utf8EncodeChar at hb
  split_ifs at hb <;>
    simp only [List.mem_cons, List.not_mem_nil, or_false] at hb <;> omega

theorem isBytes_utf8Encode (s : List Nat) (h : ∀ c ∈ s, IsUSV c) :
    IsBytes (utf8Encode s) := by
  induction s with
  | nil => intro b hb; simp [utf8Encode] at hb
  | cons c cs ih =>
    rw [utf8Encode_cons]
    intro b hb
    rcases List.mem_append.1 hb with hb | hb
    · exact isBytes_utf8EncodeChar c (h c (List.mem_cons_self _ _)).1 b hb
    · exact ih (fun x hx => h x (List.mem_cons_of_mem _ hx)) b hb

theorem utf8DecodeReplace_encodeChar (c : Nat) (h : IsUSV c) (rest : Bytes) :
    utf8DecodeReplace (utf8EncodeChar c ++ rest) = c :: utf8DecodeReplace rest := by
  obtain ⟨hlt, hsur⟩ := h
  unfold utf8EncodeChar
  by_cases hc1 : c < 128
  · rw [if_pos hc1, List.cons_append, List.nil_append]
    rw [utf8DecodeReplace.eq_def]
    dsimp only
    rw [if_pos hc1]
  · rw [if_neg hc1]
    by_cases hc2 : c < 2048
    · rw [if_pos hc2]
      simp only [List.cons_append, List.nil_append]
      rw [utf8DecodeReplace.eq_def]
      dsimp only
      rw [if_neg (by omega), if_neg (by omega), if_pos (by omega),
        if_pos (by omega)]
      congr 1
      omega
    · rw [if_neg hc2]
      by_cases hc3 : c < 65536
      · rw [if_pos hc3]
        simp only [List.cons_append, List.nil_append]
        rw [utf8DecodeReplace.eq_def]
        dsimp only
        rw [if_neg (by omega), if_neg (by omega), if_neg (by omega),
          if_pos (by omega)]
        by_cases h224 : c < 4096
        · rw [if_pos (show 224 + c / 4096 = 224 by omega),
            if_neg (show ¬224 + c / 4096 = 237 by omega),
            if_pos (by omega), if_pos (by omega)]
          congr 1
          omega
        · rw [if_neg (show ¬224 + c / 4096 = 224 by omega)]
          by_cases h237 : 53248 ≤ c ∧ c < 57344
          · rw [if_pos (show 224 + c / 4096 = 237 by omega),
              if_pos (by omega), if_pos (by omega)]
            congr 1
            omega
          · rw [if_neg (show ¬224 + c / 4096 = 237 by omega),
              if_pos (by omega), if_pos (by omega)]
            congr 1
            omega
      · rw [if_neg hc3]
        simp only [List.cons_append, List.nil_append]
        rw [utf8DecodeReplace.eq_def]
        dsimp only
        rw [if_neg (by omega), if_neg (by omega), if_neg (by omega),
          if_neg (by omega), if_pos (by omega)]
        by_cases h240 : c < 262144
        · rw [if_pos (show 240 + c / 262144 = 240 by omega),
            if_neg (show ¬240 + c / 262144 = 244 by omega),
            if_pos (by omega), if_pos (by omega), if_pos (by omega)]
          congr 1
          omega
        · rw [if_neg (show ¬240 + c / 262144 = 240 by omega)]
          by_cases h244 : 1048576 ≤ c
          · rw [if_pos (show 240 + c / 262144 = 244 by omega),
              if_pos (by omega), if_pos (by omega), if_pos (by omega)]
            congr 1
            omega
          · rw [if_neg (show ¬240 + c / 262144 = 244 by omega),
              if_pos (by omega), if_pos (by omega), if_pos (by omega)]
            congr 1
            omega

theorem utf8_roundtrip (s : List Nat) (h : ∀ c ∈ s, IsUSV c) :
    utf8DecodeReplace (utf8Encode s) = s := by
  induction s with
  | nil => rfl
  | cons c cs ih =>
    rw [utf8Encode_cons, utf8DecodeReplace_encodeChar c (h c (List.mem_cons_self _ _)),
      ih (fun x hx => h x (List.mem_cons_of_mem _ hx))]

/-- Character of the standard Base64 alphabet at index i (A-Z, a-z,
0-9, plus, slash), as a char code. -/
def b64c (i : Nat) : Nat :=
  if i < 26 then 65 + i
  else if i < 52 then 71 + i
  else if i < 62 then i - 4
  else if i = 62 then 43
  else 47

/-- Model of btoa applied to a binary string of byte values: standard
Base64 with padding (RFC 4648 / WHATWG), as a list of char codes. -/
def btoa : Bytes → List Nat
  | [] => []
  | [b0] => [b64c (b0 / 4), b64c (b0 % 4 * 16), 61, 61]
  | [b0, b1] => [b64c (b0 / 4), b64c (b0 % 4 * 16 + b1 / 16), b64c (b1 % 16 * 4), 61]
  | b0 :: b1 :: b2 :: rest =>
    b64c (b0 / 4) :: b64c (b0 % 4 * 16 + b1 / 16) ::
      b64c (b1 % 16 * 4 + b2 / 64) :: b64c (b2 % 64) :: btoa rest

/-- Base64 value of a char code, none outside the alphabet. -/
def b64v (c : Nat) : Option Nat :=
  if 65 ≤ c ∧ c ≤ 90 then some (c - 65)
  else if 97 ≤ c ∧ c ≤ 122 then some (c - 71)
  else if 48 ≤ c ∧ c ≤ 57 then some (c + 4)
  else if c = 43 then some 62
  else if c = 47 then some 63
  else none

/-- Decode a whitespace- and padding-free Base64 string: groups of
four chars give three bytes, a final group of two or three chars
gives one or two bytes (excess bits discarded, as in the WHATWG
forgiving-base64 decode), a final single char is an error. -/
def atobCore : List Nat → Option Bytes
  | [] => some []
  | [_] => none
  | [c0, c1] =>
    match b64v c0, b64v c1 with
    | some v0, some v1 => some [v0 * 4 + v1 / 16]
    | _, _ => none
  | [c0, c1, c2] =>
    match b64v c0, b64v c1, b64v c2 with
    | some v0, some v1, some v2 =>
      some [v0 * 4 + v1 / 16, v1 % 16 * 16 + v2 / 4]
    | _, _, _ => none
  | c0 :: c1 :: c2 :: c3 :: rest =>
    match b64v c0, b64v c1, b64v c2, b64v c3, atobCore rest with
    | some v0, some v1, some v2, some v3, some bs =>
      some ((v0 * 4 + v1 / 16) :: (v1 % 16 * 16 + v2 / 4) :: (v2 % 4 * 64 + v3) :: bs)
    | _, _, _, _, _ => none

/-- Remove the trailing padding of a Base64 string: two equals signs,
one, or nothing. -/
def stripPad (t : List Nat) : List Nat :=
  if t.getLast? = some 61 then
    if t.dropLast.getLast? = some 61 then t.dropLast.dropLast else t.dropLast
  else t

/-- Model of atob: the WHATWG forgiving-base64 decode.  ASCII
whitespace is removed, then trailing padding is stripped when the
length is a multiple of four, then the string is decoded; any char
outside the alphabet (including a misplaced equals sign) or a
leftover length of one is an error (InvalidCharacterError). -/
def atobClean (t : List Nat) : Option Bytes :=
  atobCore (if t.length % 4 = 0 then stripPad t else t)

def atob (s : List Nat) : Option Bytes :=
  atobClean (s.filter (fun c => !(c == 9 || c == 10 || c == 12 || c == 13 || c == 32)))

theorem b64c_ge (v : Nat) : 43 ≤ b64c v := by
  unfold b64c
  split_ifs <;> omega

theorem b64c_ne_61 (v : Nat) : b64c v ≠ 61 := by
  unfold b64c
  split_ifs <;> omega

theorem b64v_b64c : ∀ v, v < 64 → b64v (b64c v) = some v := by decide

theorem btoa_all_ge : ∀ bs : Bytes, ∀ c ∈ btoa bs, 43 ≤ c
  | [] => by
    intro c hc
    simp [btoa] at hc
  | [b0] => by
    intro c hc
    simp only [btoa, List.mem_cons, List.not_mem_nil, or_false] at hc
    rcases hc with hc | hc | hc | hc <;> subst hc
    · exact b64c_ge _
    · exact b64c_ge _
    · omega
    · omega
  | [b0, b1] => by
    intro c hc
    simp only [btoa, List.mem_cons, List.not_mem_nil, or_false] at hc
    rcases hc with hc | hc | hc | hc <;> subst hc
    · exact b64c_ge _
    · exact b64c_ge _
    · exact b64c_ge _
    · omega
  | b0 :: b1 :: b2 :: rest => by
    intro c hc
    simp only [btoa, List.mem_cons] at hc
    rcases hc with hc | hc | hc | hc | hc
    · subst hc; exact b64c_ge _
    · subst hc; exact b64c_ge _
    · subst hc; exact b64c_ge _
    · subst hc; exact b64c_ge _
    · exact btoa_all_ge rest c hc

theorem btoa_filter_ws (bs : Bytes) :
    (btoa bs).filter
      (fun c => !(c == 9 || c == 10 || c == 12 || c == 13 || c == 32)) = btoa bs := by
  rw [List.filter_eq_self]
  intro c hc
  have := btoa_all_ge bs c hc
  simp only [Bool.not_eq_true', Bool.or_eq_false_iff, beq_eq_false_iff_ne, ne_eq]
  omega

theorem stripPad_append (a t : List Nat) (ht : 2 ≤ t.length) :
    stripPad (a ++ t) = a ++ stripPad t := by
  have htne : t ≠ [] := by
    intro h
    subst h
    simp at ht
  unfold stripPad
  rw [List.getLast?_append_of_ne_nil _ htne, List.dropLast_append_of_ne_nil _ htne]
  by_cases h1 : t.getLast? = some 61
  · rw [if_pos h1, if_pos h1]
    have hdne : t.dropLast ≠ [] := by
      intro h
      have := congrArg List.length h
      simp [List.length_dropLast] at this
      omega
    rw [List.getLast?_append_of_ne_nil _ hdne, List.dropLast_append_of_ne_nil _ hdne]
    by_cases h2 : t.dropLast.getLast? = some 61
    · rw [if_pos h2, if_pos h2]
    · rw [if_neg h2, if_neg h2]
  · rw [if_neg h1, if_neg h1]

theorem stripPad_pad2 (x y : Nat) : stripPad [x, y, 61, 61] = [x, y] := by
  unfold stripPad
  simp [List.getLast?, List.dropLast]

theorem stripPad_pad1 (x y z : Nat) (hz : z ≠ 61) : stripPad [x, y, z, 61] = [x, y, z] := by
  unfold stripPad
  simp [List.getLast?, List.dropLast, hz]

theorem stripPad_nopad (w x y z : Nat) (hz : z ≠ 61) :
    stripPad [w, x, y, z] = [w, x, y, z] := by
  unfold stripPad
  simp [List.getLast?, hz]

/-- Base64 without the trailing padding: what remains of a btoa
output after the forgiving decode strips the equals signs. -/
def btoaNoPad : Bytes → List Nat
  | [] => []
  | [b0] => [b64c (b0 / 4), b64c (b0 % 4 * 16)]
  | [b0, b1] => [b64c (b0 / 4), b64c (b0 % 4 * 16 + b1 / 16), b64c (b1 % 16 * 4)]
  | b0 :: b1 :: b2 :: rest =>
    b64c (b0 / 4) :: b64c (b0 % 4 * 16 + b1 / 16) ::
      b64c (b1 % 16 * 4 + b2 / 64) :: b64c (b2 % 64) :: btoaNoPad rest

theorem btoa_length_ge (bs : Bytes) (h : bs ≠ []) : 2 ≤ (btoa bs).length := by
  match bs with
  | [] => exact absurd rfl h
  | [b0] => simp [btoa]
  | [b0, b1] => simp [btoa]
  | b0 :: b1 :: b2 :: rest => simp [btoa]

theorem stripPad_btoa : ∀ bs : Bytes, stripPad (btoa bs) = btoaNoPad bs
  | [] => rfl
  | [b0] => by
    show stripPad [b64c (b0 / 4), b64c (b0 % 4 * 16), 61, 61] = _
    rw [stripPad_pad2]
    rfl
  | [b0, b1] => by
    show stripPad [b64c (b0 / 4), b64c (b0 % 4 * 16 + b1 / 16), b64c (b1 % 16 * 4), 61] = _
    rw [stripPad_pad1 _ _ _ (b64c_ne_61 _)]
    rfl
  | [b0, b1, b2] => by
    show stripPad [b64c (b0 / 4), b64c (b0 % 4 * 16 + b1 / 16),
      b64c (b1 % 16 * 4 + b2 / 64), b64c (b2 % 64)] = _
    rw [stripPad_nopad _ _ _ _ (b64c_ne_61 _)]
    rfl
  | b0 :: b1 :: b2 :: b3 :: rest => by
    have hne : (b3 :: rest : Bytes) ≠ [] := by simp
    show stripPad ([b64c (b0 / 4), b64c (b0 % 4 * 16 + b1 / 16),
      b64c (b1 % 16 * 4 + b2 / 64), b64c (b2 % 64)] ++ btoa (b3 :: rest)) = _
    rw [stripPad_append _ _ (btoa_length_ge _ hne), stripPad_btoa (b3 :: rest)]
    rfl

theorem btoa_length_mod4 : ∀ bs : Bytes, (btoa bs).length % 4 = 0
  | [] => by simp [btoa]
  | [_] => by simp [btoa]
  | [_, _] => by simp [btoa]
  | _ :: _ :: _ :: rest => by
    simp only [btoa, List.length_cons]
    have := btoa_length_mod4 rest
    omega

theorem atobCore_btoaNoPad : ∀ bs : Bytes, IsBytes bs → atobCore (btoaNoPad bs) = some bs
  | [] => fun _ => rfl
  | [b0] => fun h => by
    have hb0 : b0 < 256 := h b0 (by simp)
    show atobCore [b64c (b0 / 4), b64c (b0 % 4 * 16)] = some [b0]
    unfold atobCore
    rw [b64v_b64c _ (by omega), b64v_b64c _ (by omega)]
    simp only [Option.some.injEq, List.cons.injEq, eq_self_iff_true, and_true]
    omega
  | [b0, b1] => fun h => by
    have hb0 : b0 < 256 := h b0 (by simp)
    have hb1 : b1 < 256 := h b1 (by simp)
    show atobCore [b64c (b0 / 4), b64c (b0 % 4 * 16 + b1 / 16), b64c (b1 % 16 * 4)] = some [b0, b1]
    unfold atobCore
    rw [b64v_b64c _ (by omega), b64v_b64c _ (by omega), b64v_b64c _ (by omega)]
    simp only [Option.some.injEq, List.cons.injEq, eq_self_iff_true, and_true]
    omega
  | b0 :: b1 :: b2 :: rest => fun h => by
    have hb0 : b0 < 256 := h b0 (by simp)
    have hb1 : b1 < 256 := h b1 (by simp)
    have hb2 : b2 < 256 := h b2 (by simp)
    have hrest : IsBytes rest := fun x hx => h x (by simp [hx])
    show atobCore (b64c (b0 / 4) :: b64c (b0 % 4 * 16 + b1 / 16) ::
      b64c (b1 % 16 * 4 + b2 / 64) :: b64c (b2 % 64) :: btoaNoPad rest) = _
    rw [atobCore.eq_def]
    dsimp only
    rw [b64v_b64c _ (by omega), b64v_b64c _ (by omega), b64v_b64c _ (by omega),
      b64v_b64c _ (by omega), atobCore_btoaNoPad rest hrest]
    simp only [Option.some.injEq, List.cons.injEq, eq_self_iff_true, and_true]
    omega

theorem atob_btoa (bs : Bytes) (h : IsBytes bs) : atob (btoa bs) = some bs := by
  unfold atob
  rw [btoa_filter_ws]
  unfold atobClean
  rw [if_pos (btoa_length_mod4 bs), stripPad_btoa, atobCore_btoaNoPad bs h]

theorem btoa_inj (a b : Bytes) (ha : IsBytes a) (hb : IsBytes b)
    (h : btoa a = btoa b) : a = b := by
  have h1 := atob_btoa a ha
  rw [h, atob_btoa b hb, Option.some.injEq] at h1
  exact h1.symm

/-- EME-OAEP padding (RFC 8017 section 7.1.1 step 2) with hLen = 32
and an empty label, producing the k-byte encoded message
0x00 ∥ maskedSeed ∥ maskedDB. -/
def oaepPad (hash : Bytes → Bytes) (k : Nat) (msg seed : Bytes) : Bytes :=
  let lHash := hash []
  let ps : Bytes := List.replicate (k - msg.length - 2 * 32 - 2) 0
  let db := lHash ++ ps ++ 1 :: msg
  let maskedDB := xorBytes db (mgf1 hash seed (k - 32 - 1))
  let maskedSeed := xorBytes seed (mgf1 hash maskedDB 32)
  0 :: (maskedSeed ++ maskedDB)

/-- EME-OAEP decoding (RFC 8017 section 7.1.2 step 3): unmask seed
and data block, then check the leading byte, the label hash and the
0x01 separator; any failure is the single decryption error. -/
def oaepUnpad (hash : Bytes → Bytes) (k : Nat) (em : Bytes) : Option Bytes :=
  let rest := em.drop 1
  let maskedSeed := rest.take 32
  let maskedDB := rest.drop 32
  let seed := xorBytes maskedSeed (mgf1 hash maskedDB 32)
  let db := xorBytes maskedDB (mgf1 hash seed (k - 32 - 1))
  let payload := (db.drop 32).dropWhile (fun x => x == 0)
  if em.headD 1 = 0 ∧ db.take 32 = hash [] ∧ payload.headD 0 = 1 then
    some (payload.drop 1)
  else none

/-- Model of a Web Crypto RSA public key handle: the numbers inside
the SPKI structure.  The algorithm binding (RSA-OAEP with SHA-256)
is fixed by every call site in the source. -/
structure RSAPublicKey where
  n : Nat
  e : Nat
deriving DecidableEq

/-- Model of a Web Crypto RSA private key handle: the numbers of the
PKCS#8 RSAPrivateKey structure (version 0).  Decryption uses only n
and d; the CRT coefficients ride along for serialization. -/
structure RSAPrivateKey where
  n : Nat
  e : Nat
  d : Nat
  p : Nat
  q : Nat
  dp : Nat
  dq : Nat
  qi : Nat
deriving DecidableEq

/-- Model of CryptoKeyPair. -/
structure CryptoKeyPair where
  publicKey : RSAPublicKey
  privateKey : RSAPrivateKey
deriving DecidableEq

/-- The errors the embedded operations can surface, mirroring the
exceptions of the platform primitives the source calls.  The design
document names them DecodingError, PlaintextTooLargeError,
DecryptionError and KeyImportError respectively. -/
inductive JsError where
  /-- DOMException InvalidCharacterError: thrown by atob on input
  that is not valid forgiving-base64. -/
  | invalidCharacterError
  /-- OperationError: crypto.subtle.encrypt rejects when the message
  is longer than k - 2 hLen - 2 bytes. -/
  | messageTooLongError
  /-- OperationError: crypto.subtle.decrypt rejects when the
  ciphertext has the wrong length or RSADP / EME-OAEP decoding
  fails. -/
  | decryptionError
  /-- DOMException DataError: crypto.subtle.importKey rejects
  malformed SPKI or PKCS#8 key data. -/
  | dataError
deriving DecidableEq

/-- Model of crypto.subtle.encrypt for RSA-OAEP (RFC 8017 section
7.1.1), with the random seed an explicit argument. -/
def subtleEncrypt (hash : Bytes → Bytes) (pk : RSAPublicKey) (seed msg : Bytes) :
    Except JsError Bytes :=
  let k := byteLength pk.n
  if k < msg.length + 2 * 32 + 2 then .error .messageTooLongError
  else .ok (i2osp (powMod (os2ip (oaepPad hash k msg seed)) pk.e pk.n) k)

/-- Model of crypto.subtle.decrypt for RSA-OAEP (RFC 8017 section
7.1.2): length check, RSADP with its range check, EME-OAEP decode;
every failure is the same OperationError. -/
def subtleDecrypt (hash : Bytes → Bytes) (sk : RSAPrivateKey) (c : Bytes) :
    Except JsError Bytes :=
  let k := byteLength sk.n
  if c.length ≠ k ∨ k < 2 * 32 + 2 then .error .decryptionError
  else if sk.n ≤ os2ip c then .error .decryptionError
  else
    match oaepUnpad hash k (i2osp (powMod (os2ip c) sk.d sk.n) k) with
    | some m => .ok m
    | none => .error .decryptionError

/-- Embedding of the AsymmetricEncryption class: it owns the two
CryptoKey fields assigned once in the constructor. -/
structure AsymmetricEncryption where
  publicKey : RSAPublicKey
  privateKey : RSAPrivateKey
deriving DecidableEq

/-- Embedding of AsymmetricEncryption.encrypt: UTF-8 encode the data
(TextEncoder), RSA-OAEP encrypt under this.publicKey, Base64 encode
the result with btoa.  The hash argument is the SHA-256 the provider
is instructed to use; the seed argument is the OAEP randomness the
provider draws inside crypto.subtle.encrypt. -/
def AsymmetricEncryption.encrypt (hash : Bytes → Bytes) (self : AsymmetricEncryption)
    (seed : Bytes) (data : List Nat) : Except JsError (List Nat) :=
  (subtleEncrypt hash self.publicKey seed (utf8Encode data)).map btoa

/-- Embedding of AsymmetricEncryption.decrypt: Base64 decode with
atob (InvalidCharacterError on bad input), RSA-OAEP decrypt under
this.privateKey, then decode the bytes with a default TextDecoder,
which replaces invalid UTF-8 with U+FFFD and never throws. -/
def AsymmetricEncryption.decrypt (hash : Bytes → Bytes) (self : AsymmetricEncryption)
    (encryptedBase64Data : List Nat) : Except JsError (List Nat) :=
  match atob encryptedBase64Data with
  | none => .error .invalidCharacterError
  | some encryptedData =>
    (subtleDecrypt hash self.privateKey encryptedData).map utf8DecodeReplace

theorem dropWhile_zeros (n : Nat) (l : Bytes) :
    List.dropWhile (fun x => x == 0) (List.replicate n 0 ++ 1 :: l) = 1 :: l := by
  induction n with
  | zero => simp [List.dropWhile_cons]
  | succ n ih => simpa [List.replicate_succ, List.dropWhile_cons] using ih

theorem oaepUnpad_oaepPad (hash : Bytes → Bytes) (hh : GoodHash hash) (k : Nat)
    (msg seed : Bytes) (hmlen : msg.length + 2 * 32 + 2 ≤ k)
    (hsl : seed.length = 32) (hsb : IsBytes seed) :
    oaepUnpad hash k (oaepPad hash k msg seed) = some msg := by
  have hlh : (hash []).length = 32 := (hh []).1
  simp only [oaepPad]
  have hdblen : (hash [] ++ List.replicate (k - msg.length - 2 * 32 - 2) 0 ++ 1 :: msg).length
      = k - 32 - 1 := by
    simp only [List.length_append, List.length_replicate, List.length_cons, hlh]
    omega
  have hm1len : (mgf1 hash seed (k - 32 - 1)).length = k - 32 - 1 :=
    length_mgf1 hash hh seed _
  have hmdblen : (xorBytes (hash [] ++ List.replicate (k - msg.length - 2 * 32 - 2) 0 ++ 1 :: msg)
      (mgf1 hash seed (k - 32 - 1))).length = k - 32 - 1 := by
    rw [length_xorBytes, hdblen, hm1len]
    omega
  have hmsdlen : (xorBytes seed (mgf1 hash
      (xorBytes (hash [] ++ List.replicate (k - msg.length - 2 * 32 - 2) 0 ++ 1 :: msg)
        (mgf1 hash seed (k - 32 - 1))) 32)).length = 32 := by
    rw [length_xorBytes, hsl, length_mgf1 hash hh]
    omega
  simp only [oaepUnpad]
  have hdrop1 : ∀ (x : Nat) (l : Bytes), (x :: l).drop 1 = l := fun _ _ => rfl
  have hheadD : ∀ (x : Nat) (l : Bytes), (x :: l).headD 1 = x := fun _ _ => rfl
  simp only [hdrop1, hheadD]
  rw [List.take_left' hmsdlen, List.drop_left' hmsdlen]
  rw [xorBytes_cancel seed _ (by rw [length_mgf1 hash hh]; omega)]
  rw [xorBytes_cancel _ _ (by rw [hdblen, hm1len])]
  rw [List.append_assoc, List.drop_left' hlh, List.take_left' hlh]
  rw [dropWhile_zeros]
  simp

theorem oaepPad_length (hash : Bytes → Bytes) (hh : GoodHash hash) (k : Nat)
    (msg seed : Bytes) (hmlen : msg.length + 2 * 32 + 2 ≤ k) (hsl : seed.length = 32) :
    (oaepPad hash k msg seed).length = k := by
  have hlh : (hash []).length = 32 := (hh []).1
  simp only [oaepPad, List.length_cons, List.length_append, length_xorBytes,
    length_mgf1 hash hh, List.length_replicate, hlh, hsl, List.length_cons]
  omega

theorem isBytes_oaepPad (hash : Bytes → Bytes) (hh : GoodHash hash) (k : Nat)
    (msg seed : Bytes) (hmb : IsBytes msg) (hsb : IsBytes seed) :
    IsBytes (oaepPad hash k msg seed) := by
  simp only [oaepPad]
  intro b hb
  rcases List.mem_cons.1 hb with hb | hb
  · omega
  rcases List.mem_append.1 hb with hb | hb
  · refine isBytes_xorBytes _ _ hsb (isBytes_mgf1 hash hh _ _) b hb
  · refine isBytes_xorBytes _ _ ?_ (isBytes_mgf1 hash hh _ _) b hb
    intro x hx
    rcases List.mem_append.1 hx with hx | hx
    · rcases List.mem_append.1 hx with hx | hx
      · exact (hh []).2 x hx
      · rw [List.eq_of_mem_replicate hx]; omega
    · rcases List.mem_cons.1 hx with hx | hx
      · omega
      · exact hmb x hx

theorem os2ip_oaepPad_lt (hash : Bytes → Bytes) (hh : GoodHash hash) (k : Nat)
    (msg seed : Bytes) (hmb : IsBytes msg) (hsb : IsBytes seed)
    (hmlen : msg.length + 2 * 32 + 2 ≤ k) (hsl : seed.length = 32) :
    os2ip (oaepPad hash k msg seed) < 256 ^ (k - 1) := by
  have hlen := oaepPad_length hash hh k msg seed hmlen hsl
  have hbytes := isBytes_oaepPad hash hh k msg seed hmb hsb
  simp only [oaepPad] at hlen hbytes ⊢
  rw [os2ip_cons]
  have htail : IsBytes (xorBytes seed (mgf1 hash (xorBytes
      (hash [] ++ List.replicate (k - msg.length - 2 * 32 - 2) 0 ++ 1 :: msg)
      (mgf1 hash seed (k - 32 - 1))) 32) ++ xorBytes
      (hash [] ++ List.replicate (k - msg.length - 2 * 32 - 2) 0 ++ 1 :: msg)
      (mgf1 hash seed (k - 32 - 1))) :=
    fun x hx => hbytes x (List.mem_cons_of_mem _ hx)
  have := os2ip_lt _ htail
  have hlen2 : (xorBytes seed (mgf1 hash (xorBytes
      (hash [] ++ List.replicate (k - msg.length - 2 * 32 - 2) 0 ++ 1 :: msg)
      (mgf1 hash seed (k - 32 - 1))) 32) ++ xorBytes
      (hash [] ++ List.replicate (k - msg.length - 2 * 32 - 2) 0 ++ 1 :: msg)
      (mgf1 hash seed (k - 32 - 1))).length = k - 1 := by
    simp only [List.length_cons] at hlen
    omega
  rw [hlen2] at this
  omega

theorem subtleDecrypt_subtleEncrypt (hash : Bytes → Bytes) (hh : GoodHash hash)
    (pub : RSAPublicKey) (priv : RSAPrivateKey) (k : Nat)
    (hk : byteLength pub.n = k) (hnn : priv.n = pub.n)
    (hlo : 256 ^ (k - 1) ≤ pub.n) (hhi : pub.n ≤ 256 ^ k)
    (msg seed : Bytes) (hmb : IsBytes msg) (hmlen : msg.length + 2 * 32 + 2 ≤ k)
    (hsl : seed.length = 32) (hsb : IsBytes seed)
    (hrsa : powMod (powMod (os2ip (oaepPad hash k msg seed)) pub.e pub.n) priv.d priv.n
      = os2ip (oaepPad hash k msg seed)) :
    (subtleEncrypt hash pub seed msg).bind (subtleDecrypt hash priv) = .ok msg := by
  have hn0 : 0 < pub.n := by
    have : (0:Nat) < 256 ^ (k - 1) := Nat.pos_pow_of_pos _ (by norm_num)
    omega
  rw [hnn] at hrsa
  simp only [subtleEncrypt, hk]
  rw [if_neg (by omega)]
  simp only [Except.bind]
  simp only [subtleDecrypt, hnn, hk]
  rw [if_neg (by
    simp only [length_i2osp]
    omega)]
  have hctlt : powMod (os2ip (oaepPad hash k msg seed)) pub.e pub.n < pub.n :=
    powMod_lt _ _ _ hn0
  rw [os2ip_i2osp _ k (by omega)]
  rw [if_neg (by omega)]
  rw [hrsa]
  have hemlen := oaepPad_length hash hh k msg seed hmlen hsl
  have hembytes := isBytes_oaepPad hash hh k msg seed hmb hsb
  have := i2osp_os2ip _ hembytes
  rw [hemlen] at this
  rw [this]
  rw [oaepUnpad_oaepPad hash hh k msg seed hmlen hsl hsb]

theorem encrypt_then_decrypt (hash : Bytes → Bytes) (hh : GoodHash hash)
    (A : AsymmetricEncryption) (k : Nat)
    (hk : byteLength A.publicKey.n = k) (hnn : A.privateKey.n = A.publicKey.n)
    (hlo : 256 ^ (k - 1) ≤ A.publicKey.n) (hhi : A.publicKey.n ≤ 256 ^ k)
    (data : List Nat) (hdata : ∀ c ∈ data, IsUSV c)
    (hdlen : (utf8Encode data).length + 2 * 32 + 2 ≤ k)
    (seed : Bytes) (hsl : seed.length = 32) (hsb : IsBytes seed)
    (hrsa : powMod (powMod (os2ip (oaepPad hash k (utf8Encode data) seed))
        A.publicKey.e A.publicKey.n) A.privateKey.d A.privateKey.n
      = os2ip (oaepPad hash k (utf8Encode data) seed)) :
    (A.encrypt hash seed data).bind (A.decrypt hash) = .ok data := by
  have hsub := subtleDecrypt_subtleEncrypt hash hh A.publicKey A.privateKey k hk hnn
    hlo hhi (utf8Encode data) seed (isBytes_utf8Encode data hdata) hdlen hsl hsb hrsa
  have henc : subtleEncrypt hash A.publicKey seed (utf8Encode data) =
      .ok (i2osp (powMod (os2ip (oaepPad hash k (utf8Encode data) seed))
        A.publicKey.e A.publicKey.n) k) := by
    simp only [subtleEncrypt, hk]
    rw [if_neg (by omega)]
  rw [henc] at hsub
  simp only [Except.bind] at hsub
  have hctb : IsBytes (i2osp (powMod (os2ip (oaepPad hash k (utf8Encode data) seed))
      A.publicKey.e A.publicKey.n) k) := isBytes_i2osp _ _
  have hencl : A.encrypt hash seed data =
      .ok (btoa (i2osp (powMod (os2ip (oaepPad hash k (utf8Encode data) seed))
        A.publicKey.e A.publicKey.n) k)) := by
    show (subtleEncrypt hash A.publicKey seed (utf8Encode data)).map btoa = _
    rw [henc]
    rfl
  rw [hencl]
  show (AsymmetricEncryption.decrypt hash A (btoa (i2osp (powMod
    (os2ip (oaepPad hash k (utf8Encode data) seed))
    A.publicKey.e A.publicKey.n) k))) = Except.ok data
  simp only [AsymmetricEncryption.decrypt]
  rw [atob_btoa _ hctb]
  dsimp only
  rw [hsub]
  show Except.ok (utf8DecodeReplace (utf8Encode data)) = Except.ok data
  rw [utf8_roundtrip data hdata]

theorem bitLenAux_eq_size : ∀ k e : Nat, Nat.size e ≤ 2 ^ k → bitLenAux k e = Nat.size e := by
  intro k
  induction k with
  | zero =>
    intro e he
    have he2 : e < 2 ^ 2 ^ 0 := Nat.size_le.1 he
    norm_num at he2
    interval_cases e
    · simp [bitLenAux, Nat.size_zero]
    · simp [bitLenAux, Nat.size_one]
  | succ k ih =>
    intro e hes
    have he : e < 2 ^ 2 ^ (k + 1) := Nat.size_le.1 hes
    show (if e >>> 2 ^ k = 0 then bitLenAux k e
      else bitLenAux k (e >>> 2 ^ k) + 2 ^ k) = Nat.size e
    rw [Nat.shiftRight_eq_div_pow]
    by_cases h0 : e / 2 ^ 2 ^ k = 0
    · rw [if_pos h0]
      have hp : 0 < 2 ^ 2 ^ k := Nat.pos_pow_of_pos _ (by norm_num)
      exact ih e (Nat.size_le.2 ((Nat.div_eq_zero_iff hp).1 h0))
    · rw [if_neg h0]
      have hp : 0 < 2 ^ 2 ^ k := Nat.pos_pow_of_pos _ (by norm_num)
      have hlt : e / 2 ^ 2 ^ k < 2 ^ 2 ^ k := by
        rw [Nat.div_lt_iff_lt_mul hp]
        calc e < 2 ^ 2 ^ (k + 1) := he
          _ = 2 ^ 2 ^ k * 2 ^ 2 ^ k := by
            rw [← pow_add]
            congr 1
            omega
      rw [ih _ (Nat.size_le.2 hlt)]
      set q := e / 2 ^ 2 ^ k with hq
      have hq0 : 0 < q := Nat.pos_of_ne_zero h0
      have hs1 : 1 ≤ Nat.size q := by
        rw [Nat.one_le_iff_ne_zero, ← Nat.pos_iff_ne_zero, Nat.size_pos]
        exact hq0
      have hk0 : 0 < 2 ^ k := Nat.pos_pow_of_pos _ (by norm_num)
      apply Nat.le_antisymm
      · have h2 : 2 ^ (Nat.size q - 1) ≤ q := by
          rw [← Nat.lt_size]
          omega
        have hlt2 : Nat.size q + 2 ^ k - 1 < Nat.size e := by
          rw [Nat.lt_size]
          calc 2 ^ (Nat.size q + 2 ^ k - 1) = 2 ^ (Nat.size q - 1) * 2 ^ 2 ^ k := by
                rw [← pow_add]
                congr 1
                omega
            _ ≤ q * 2 ^ 2 ^ k := Nat.mul_le_mul_right _ h2
            _ ≤ e := by
                rw [hq]
                exact Nat.div_mul_le_self e _
        omega
      · rw [Nat.size_le]
        have h3 : q < 2 ^ Nat.size q := Nat.lt_size_self q
        calc e < (q + 1) * 2 ^ 2 ^ k := by
              rw [hq]
              exact (Nat.div_lt_iff_lt_mul hp).1 (Nat.lt_succ_self _)
          _ ≤ 2 ^ Nat.size q * 2 ^ 2 ^ k := Nat.mul_le_mul_right _ (by omega)
          _ = 2 ^ (Nat.size q + 2 ^ k) := by rw [← pow_add]

theorem bitLen_eq_size (e : Nat) (he : e < 2 ^ 8192) : bitLen e = Nat.size e := by
  refine bitLenAux_eq_size 64 e ?_
  have h1 : Nat.size e ≤ 8192 := Nat.size_le.2 he
  have h2 : (8192:Nat) ≤ 2 ^ 64 := by norm_num
  omega

theorem two_pow_eq_256_pow (x : Nat) : 2 ^ (8 * x) = 256 ^ x := by
  rw [pow_mul]
  norm_num

theorem lt_256_pow_byteLength (e : Nat) (he : e < 2 ^ 8192) :
    e < 256 ^ byteLength e := by
  rw [byteLength, bitLen_eq_size e he, ← two_pow_eq_256_pow]
  have h1 : Nat.size e ≤ 8 * ((Nat.size e + 7) / 8) := by omega
  exact lt_of_lt_of_le (Nat.lt_size_self e) (Nat.pow_le_pow_right (by norm_num) h1)

theorem byteLength_pos (e : Nat) (he : e < 2 ^ 8192) (h0 : 0 < e) :
    0 < byteLength e := by
  rw [byteLength, bitLen_eq_size e he]
  have : 0 < Nat.size e := Nat.size_pos.2 h0
  omega

/-- Minimal big-endian byte encoding of a natural number (empty for
zero), as used for DER INTEGER contents and long-form lengths. -/
def bemin (v : Nat) : Bytes := i2osp v (byteLength v)

/-- DER definite-length field: short form below 128, else long form
with a count byte followed by the big-endian length. -/
def derLen (l : Nat) : Bytes :=
  if l < 128 then [l] else (128 + byteLength l) :: bemin l

/-- DER tag-length-value triple. -/
def derTLV (tag : Nat) (content : Bytes) : Bytes :=
  tag :: (derLen content.length ++ content)

/-- Content bytes of a DER INTEGER for a nonnegative value: minimal
big-endian with a leading zero byte when the top bit is set. -/
def derIntContent (v : Nat) : Bytes :=
  if v = 0 then [0]
  else if 128 ≤ (bemin v).headD 0 then 0 :: bemin v else bemin v

/-- DER INTEGER (tag 2) of a nonnegative value. -/
def derInt (v : Nat) : Bytes := derTLV 2 (derIntContent v)

/-- DER SEQUENCE (tag 48). -/
def derSeq (content : Bytes) : Bytes := derTLV 48 content

/-- DER OCTET STRING (tag 4). -/
def derOcts (content : Bytes) : Bytes := derTLV 4 content

/-- DER BIT STRING (tag 3) with zero unused bits. -/
def derBits (content : Bytes) : Bytes := derTLV 3 (0 :: content)

/-- AlgorithmIdentifier SEQUENCE for rsaEncryption with NULL
parameters (OID 1.2.840.113549.1.1.1), the fixed fifteen bytes of
every RSA SPKI and PKCS#8 header. -/
def algIdRSA : Bytes := [48, 13, 6, 9, 42, 134, 72, 134, 247, 13, 1, 1, 1, 5, 0]

/-- PKCS#1 RSAPublicKey structure: SEQUENCE of modulus and public
exponent. -/
def rsaPublicKeyDER (pk : RSAPublicKey) : Bytes :=
  derSeq (derInt pk.n ++ derInt pk.e)

/-- SubjectPublicKeyInfo: SEQUENCE of the rsaEncryption
AlgorithmIdentifier and a BIT STRING wrapping the RSAPublicKey; the
byte form crypto.subtle.exportKey("spki", key) produces. -/
def spkiEncode (pk : RSAPublicKey) : Bytes :=
  derSeq (algIdRSA ++ derBits (rsaPublicKeyDER pk))

/-- PKCS#1 RSAPrivateKey structure: SEQUENCE of version 0 and the
eight key integers. -/
def rsaPrivateKeyDER (sk : RSAPrivateKey) : Bytes :=
  derSeq (derInt 0 ++ derInt sk.n ++ derInt sk.e ++ derInt sk.d ++ derInt sk.p ++
    derInt sk.q ++ derInt sk.dp ++ derInt sk.dq ++ derInt sk.qi)

/-- PKCS#8 PrivateKeyInfo: SEQUENCE of version 0, the rsaEncryption
AlgorithmIdentifier and an OCTET STRING wrapping the RSAPrivateKey;
the byte form crypto.subtle.exportKey("pkcs8", key) produces. -/
def pkcs8Encode (sk : RSAPrivateKey) : Bytes :=
  derSeq (derInt 0 ++ algIdRSA ++ derOcts (rsaPrivateKeyDER sk))

/-- Parse a DER length field. -/
def parseLen : Bytes → Option (Nat × Bytes)
  | [] => none
  | b :: r =>
    if b < 128 then some (b, r)
    else
      if b = 128 ∨ r.length < b - 128 then none
      else some (os2ip (r.take (b - 128)), r.drop (b - 128))

/-- Parse a DER TLV with the expected tag, returning content and
remainder. -/
def parseTLV (tag : Nat) : Bytes → Option (Bytes × Bytes)
  | [] => none
  | t :: r =>
    if t = tag then
      (parseLen r).bind fun lr =>
        if lr.1 ≤ lr.2.length then some (lr.2.take lr.1, lr.2.drop lr.1) else none
    else none

/-- Parse a DER INTEGER as a natural number. -/
def parseInt (bs : Bytes) : Option (Nat × Bytes) :=
  (parseTLV 2 bs).map fun cr => (os2ip cr.1, cr.2)

/-- Model of crypto.subtle.importKey("spki", ...) for RSA-OAEP: parse
the SubjectPublicKeyInfo structure, requiring the rsaEncryption
algorithm identifier, a zero unused-bits byte in the BIT STRING and
no trailing data. -/
def spkiDecode (bs : Bytes) : Option RSAPublicKey :=
  (parseTLV 48 bs).bind fun br =>
  if br.2 = [] ∧ br.1.take 15 = algIdRSA then
    (parseTLV 3 (br.1.drop 15)).bind fun xr =>
    if xr.2 = [] ∧ xr.1.headD 1 = 0 then
      (parseTLV 48 (xr.1.drop 1)).bind fun kr =>
      if kr.2 = [] then
        (parseInt kr.1).bind fun nr =>
        (parseInt nr.2).bind fun er =>
        if er.2 = [] then some ⟨nr.1, er.1⟩ else none
      else none
    else none
  else none

/-- Model of crypto.subtle.importKey("pkcs8", ...) for RSA-OAEP:
parse the PrivateKeyInfo structure, requiring version 0, the
rsaEncryption algorithm identifier and no trailing data. -/
def pkcs8Decode (bs : Bytes) : Option RSAPrivateKey :=
  (parseTLV 48 bs).bind fun br =>
  if br.2 = [] then
    (parseInt br.1).bind fun vr =>
    if vr.1 = 0 ∧ vr.2.take 15 = algIdRSA then
      (parseTLV 4 (vr.2.drop 15)).bind fun or1 =>
      if or1.2 = [] then
        (parseTLV 48 or1.1).bind fun kr =>
        if kr.2 = [] then
          (parseInt kr.1).bind fun v0 =>
          if v0.1 = 0 then
            (parseInt v0.2).bind fun nr =>
            (parseInt nr.2).bind fun er =>
            (parseInt er.2).bind fun dr =>
            (parseInt dr.2).bind fun pr =>
            (parseInt pr.2).bind fun qr =>
            (parseInt qr.2).bind fun dpr =>
            (parseInt dpr.2).bind fun dqr =>
            (parseInt dqr.2).bind fun qir =>
            if qir.2 = [] then
              some ⟨nr.1, er.1, dr.1, pr.1, qr.1, dpr.1, dqr.1, qir.1⟩
            else none
          else none
        else none
      else none
    else none
  else none

/-- Base64-encoded key pair, the shape exportRSAKeyPairToBase64
returns. -/
structure Base64KeyPair where
  publicKey : List Nat
  privateKey : List Nat
deriving DecidableEq

/-- Embedding of the static method exportRSAKeyPairToBase64: export
each key to its standard binary form (SPKI for public, PKCS#8 for
private) and Base64-encode each with btoa.  Keys produced by this
component are always exportable, so the export itself cannot fail. -/
def AsymmetricEncryption.exportRSAKeyPairToBase64 (keyPair : CryptoKeyPair) : Base64KeyPair :=
  ⟨btoa (spkiEncode keyPair.publicKey), btoa (pkcs8Encode keyPair.privateKey)⟩

/-- Embedding of the static method importRSAKeyPairFromBase64: atob
both strings (InvalidCharacterError on bad Base64), then import the
public key from SPKI bytes and the private key from PKCS#8 bytes
(DataError on malformed data).  No check relates the two keys. -/
def AsymmetricEncryption.importRSAKeyPairFromBase64 (base64PublicKey base64PrivateKey : List Nat) :
    Except JsError CryptoKeyPair :=
  match atob base64PublicKey with
  | none => .error .invalidCharacterError
  | some publicKeyBuffer =>
    match atob base64PrivateKey with
    | none => .error .invalidCharacterError
    | some privateKeyBuffer =>
      match spkiDecode publicKeyBuffer with
      | none => .error .dataError
      | some publicKey =>
        match pkcs8Decode privateKeyBuffer with
        | none => .error .dataError
        | some privateKey => .ok ⟨publicKey, privateKey⟩

theorem length_bemin (v : Nat) : (bemin v).length = byteLength v := length_i2osp _ _

theorem os2ip_bemin (v : Nat) (hv : v < 2 ^ 8192) : os2ip (bemin v) = v :=
  os2ip_i2osp v (byteLength v) (lt_256_pow_byteLength v hv)

theorem byteLength_le_of_lt (v b : Nat) (hv : v < 2 ^ (8 * b)) (hb : 8 * b ≤ 8192) :
    byteLength v ≤ b := by
  have hv2 : v < 2 ^ 8192 := lt_of_lt_of_le hv (Nat.pow_le_pow_right (by norm_num) hb)
  rw [byteLength, bitLen_eq_size v hv2]
  have : Nat.size v ≤ 8 * b := Nat.size_le.2 hv
  omega

theorem parseLen_cons (b : Nat) (r : Bytes) :
    parseLen (b :: r) = if b < 128 then some (b, r)
      else if b = 128 ∨ r.length < b - 128 then none
      else some (os2ip (r.take (b - 128)), r.drop (b - 128)) := rfl

theorem parseLen_der (l : Nat) (hl : l < 2 ^ 8192) (rest : Bytes) :
    parseLen (derLen l ++ rest) = some (l, rest) := by
  unfold derLen
  by_cases h : l < 128
  · rw [if_pos h, List.cons_append, List.nil_append, parseLen_cons, if_pos h]
  · rw [if_neg h]
    have hbl : 0 < byteLength l := byteLength_pos l hl (by omega)
    have hlen := length_bemin l
    have hip := os2ip_bemin l hl
    generalize hG : bemin l = G at hlen hip ⊢
    generalize hB : byteLength l = B at hlen hbl ⊢
    rw [List.cons_append, parseLen_cons]
    rw [if_neg (by omega)]
    rw [if_neg (by
      simp only [List.length_append, hlen]
      omega)]
    have hcnt : 128 + B - 128 = B := by omega
    rw [hcnt, List.take_left' hlen, List.drop_left' hlen, hip]

theorem parseTLV_cons (tag t : Nat) (r : Bytes) :
    parseTLV tag (t :: r) = if t = tag then
      (parseLen r).bind fun lr =>
        if lr.1 ≤ lr.2.length then some (lr.2.take lr.1, lr.2.drop lr.1) else none
    else none := rfl

theorem parseTLV_der (tag : Nat) (content rest : Bytes) (hl : content.length < 2 ^ 8192) :
    parseTLV tag (derTLV tag content ++ rest) = some (content, rest) := by
  unfold derTLV
  rw [List.cons_append, parseTLV_cons, if_pos rfl, List.append_assoc,
    parseLen_der _ hl, Option.some_bind]
  rw [if_pos (by simp)]
  rw [List.take_left, List.drop_left]

theorem derIntContent_os2ip (v : Nat) (hv : v < 2 ^ 8192) :
    os2ip (derIntContent v) = v := by
  unfold derIntContent
  have hip := os2ip_bemin v hv
  generalize hG : bemin v = G at hip ⊢
  by_cases h0 : v = 0
  · rw [if_pos h0, h0]
    rfl
  · rw [if_neg h0]
    by_cases hh : 128 ≤ G.headD 0
    · rw [if_pos hh, os2ip_cons, hip]
      simp
    · rw [if_neg hh, hip]

theorem derIntContent_length_le (v : Nat) (hv : v < 2 ^ 8192) :
    (derIntContent v).length ≤ 1025 := by
  have hb : byteLength v ≤ 1024 :=
    byteLength_le_of_lt v 1024
      (by rw [show (8:Nat) * 1024 = 8192 by norm_num]; exact hv) (by norm_num)
  have hlen := length_bemin v
  unfold derIntContent
  generalize hG : bemin v = G at hlen ⊢
  generalize hB : byteLength v = B at hlen hb
  by_cases h0 : v = 0
  · rw [if_pos h0]
    decide
  · rw [if_neg h0]
    by_cases hh : 128 ≤ G.headD 0
    · rw [if_pos hh, List.length_cons, hlen]
      omega
    · rw [if_neg hh, hlen]
      omega

theorem parseInt_der (v : Nat) (hv : v < 2 ^ 8192) (rest : Bytes) :
    parseInt (derInt v ++ rest) = some (v, rest) := by
  unfold derInt parseInt
  rw [parseTLV_der 2 _ rest (lt_of_le_of_lt (derIntContent_length_le v hv)
    (by norm_num))]
  show some (os2ip (derIntContent v), rest) = some (v, rest)
  rw [derIntContent_os2ip v hv]

theorem derLen_length_le3 (l : Nat) (hl : l < 65536) : (derLen l).length ≤ 3 := by
  have hb : byteLength l ≤ 2 :=
    byteLength_le_of_lt l 2 (by rw [show (8:Nat) * 2 = 16 by norm_num]; exact hl)
      (by norm_num)
  unfold derLen
  by_cases h : l < 128
  · rw [if_pos h]
    simp
  · rw [if_neg h, List.length_cons, length_bemin]
    omega

theorem derTLV_length_le (tag : Nat) (content : Bytes) (hc : content.length < 65536) :
    (derTLV tag content).length ≤ content.length + 4 := by
  unfold derTLV
  rw [List.length_cons, List.length_append]
  have := derLen_length_le3 content.length hc
  omega

theorem derInt_length_le (v : Nat) (hv : v < 2 ^ 8192) : (derInt v).length ≤ 1029 := by
  unfold derInt
  have hc := derIntContent_length_le v hv
  have := derTLV_length_le 2 (derIntContent v) (by omega)
  omega

theorem isBytes_derLen (l : Nat) (hl : l < 65536) : IsBytes (derLen l) := by
  have hb : byteLength l ≤ 2 :=
    byteLength_le_of_lt l 2 (by rw [show (8:Nat) * 2 = 16 by norm_num]; exact hl)
      (by norm_num)
  unfold derLen
  by_cases h : l < 128
  · rw [if_pos h]
    intro b hb2
    rcases List.mem_singleton.1 hb2 with rfl
    omega
  · rw [if_neg h]
    intro b hb2
    rcases List.mem_cons.1 hb2 with rfl | hb2
    · omega
    · exact isBytes_i2osp _ _ b hb2

theorem isBytes_derTLV (tag : Nat) (htag : tag < 256) (content : Bytes)
    (hc : IsBytes content) (hl : content.length < 65536) :
    IsBytes (derTLV tag content) := by
  unfold derTLV
  intro b hb
  rcases List.mem_cons.1 hb with rfl | hb
  · exact htag
  rcases List.mem_append.1 hb with hb | hb
  · exact isBytes_derLen _ hl b hb
  · exact hc b hb

theorem isBytes_derInt (v : Nat) (hv : v < 2 ^ 8192) : IsBytes (derInt v) := by
  unfold derInt
  refine isBytes_derTLV 2 (by norm_num) _ ?_ ?_
  · unfold derIntContent
    split_ifs
    · intro b hb
      rcases List.mem_singleton.1 hb with rfl
      omega
    · intro b hb
      rcases List.mem_cons.1 hb with rfl | hb
      · omega
      · exact isBytes_i2osp _ _ b hb
    · exact isBytes_i2osp _ _
  · have := derIntContent_length_le v hv
    omega

theorem isBytes_append {a b : Bytes} (ha : IsBytes a) (hb : IsBytes b) :
    IsBytes (a ++ b) := by
  intro x hx
  rcases List.mem_append.1 hx with h | h
  · exact ha x h
  · exact hb x h

theorem parseTLV_der_nil (tag : Nat) (content : Bytes) (hl : content.length < 2 ^ 8192) :
    parseTLV tag (derTLV tag content) = some (content, []) := by
  have h := parseTLV_der tag content [] hl
  rwa [List.append_nil] at h

theorem parseInt_der_nil (v : Nat) (hv : v < 2 ^ 8192) :
    parseInt (derInt v) = some (v, []) := by
  have h := parseInt_der v hv []
  rwa [List.append_nil] at h

theorem rsaPublicKeyDER_length_le (pk : RSAPublicKey)
    (hn : pk.n < 2 ^ 8192) (he : pk.e < 2 ^ 8192) :
    (rsaPublicKeyDER pk).length ≤ 2062 := by
  unfold rsaPublicKeyDER derSeq
  have h1 := derInt_length_le pk.n hn
  have h2 := derInt_length_le pk.e he
  have h3 := derTLV_length_le 48 (derInt pk.n ++ derInt pk.e)
    (by rw [List.length_append]; omega)
  rw [List.length_append] at h3
  omega

theorem isBytes_rsaPublicKeyDER (pk : RSAPublicKey)
    (hn : pk.n < 2 ^ 8192) (he : pk.e < 2 ^ 8192) :
    IsBytes (rsaPublicKeyDER pk) := by
  unfold rsaPublicKeyDER derSeq
  have h1 := derInt_length_le pk.n hn
  have h2 := derInt_length_le pk.e he
  refine isBytes_derTLV 48 (by norm_num) _
    (isBytes_append (isBytes_derInt _ hn) (isBytes_derInt _ he)) ?_
  rw [List.length_append]
  omega

theorem spkiEncode_length_le (pk : RSAPublicKey)
    (hn : pk.n < 2 ^ 8192) (he : pk.e < 2 ^ 8192) :
    (spkiEncode pk).length ≤ 2086 := by
  unfold spkiEncode derSeq derBits
  have h1 := rsaPublicKeyDER_length_le pk hn he
  have h2 := derTLV_length_le 3 (0 :: rsaPublicKeyDER pk)
    (by rw [List.length_cons]; omega)
  rw [List.length_cons] at h2
  have hA : algIdRSA.length = 15 := rfl
  have h3 := derTLV_length_le 48 (algIdRSA ++ derTLV 3 (0 :: rsaPublicKeyDER pk))
    (by rw [List.length_append, hA]; omega)
  rw [List.length_append, hA] at h3
  omega

theorem isBytes_spkiEncode (pk : RSAPublicKey)
    (hn : pk.n < 2 ^ 8192) (he : pk.e < 2 ^ 8192) :
    IsBytes (spkiEncode pk) := by
  unfold spkiEncode derSeq derBits
  have h1 := rsaPublicKeyDER_length_le pk hn he
  have h2 := derTLV_length_le 3 (0 :: rsaPublicKeyDER pk)
    (by rw [List.length_cons]; omega)
  rw [List.length_cons] at h2
  refine isBytes_derTLV 48 (by norm_num) _ ?_ ?_
  · refine isBytes_append (by decide) ?_
    refine isBytes_derTLV 3 (by norm_num) _ ?_ ?_
    · intro b hb
      rcases List.mem_cons.1 hb with rfl | hb
      · omega
      · exact isBytes_rsaPublicKeyDER pk hn he b hb
    · rw [List.length_cons]
      omega
  · rw [List.length_append, show algIdRSA.length = 15 from rfl]
    omega

theorem rsaPrivateKeyDER_length_le (sk : RSAPrivateKey)
    (hn : sk.n < 2 ^ 8192) (he : sk.e < 2 ^ 8192) (hd : sk.d < 2 ^ 8192)
    (hp : sk.p < 2 ^ 8192) (hq : sk.q < 2 ^ 8192) (hdp : sk.dp < 2 ^ 8192)
    (hdq : sk.dq < 2 ^ 8192) (hqi : sk.qi < 2 ^ 8192) :
    (rsaPrivateKeyDER sk).length ≤ 9270 := by
  unfold rsaPrivateKeyDER derSeq
  have h0 := derInt_length_le 0 (by norm_num)
  have h1 := derInt_length_le sk.n hn
  have h2 := derInt_length_le sk.e he
  have h3 := derInt_length_le sk.d hd
  have h4 := derInt_length_le sk.p hp
  have h5 := derInt_length_le sk.q hq
  have h6 := derInt_length_le sk.dp hdp
  have h7 := derInt_length_le sk.dq hdq
  have h8 := derInt_length_le sk.qi hqi
  have h9 := derTLV_length_le 48 (derInt 0 ++ derInt sk.n ++ derInt sk.e ++
    derInt sk.d ++ derInt sk.p ++ derInt sk.q ++ derInt sk.dp ++ derInt sk.dq ++
    derInt sk.qi) (by simp only [List.length_append]; omega)
  simp only [List.length_append] at h9
  omega

theorem isBytes_rsaPrivateKeyDER (sk : RSAPrivateKey)
    (hn : sk.n < 2 ^ 8192) (he : sk.e < 2 ^ 8192) (hd : sk.d < 2 ^ 8192)
    (hp : sk.p < 2 ^ 8192) (hq : sk.q < 2 ^ 8192) (hdp : sk.dp < 2 ^ 8192)
    (hdq : sk.dq < 2 ^ 8192) (hqi : sk.qi < 2 ^ 8192) :
    IsBytes (rsaPrivateKeyDER sk) := by
  unfold rsaPrivateKeyDER derSeq
  have h0 := derInt_length_le 0 (by norm_num)
  have h1 := derInt_length_le sk.n hn
  have h2 := derInt_length_le sk.e he
  have h3 := derInt_length_le sk.d hd
  have h4 := derInt_length_le sk.p hp
  have h5 := derInt_length_le sk.q hq
  have h6 := derInt_length_le sk.dp hdp
  have h7 := derInt_length_le sk.dq hdq
  have h8 := derInt_length_le sk.qi hqi
  refine isBytes_derTLV 48 (by norm_num) _ ?_ ?_
  · exact isBytes_append (isBytes_append (isBytes_append (isBytes_append
      (isBytes_append (isBytes_append (isBytes_append (isBytes_append
      (isBytes_derInt _ (by norm_num)) (isBytes_derInt _ hn))
      (isBytes_derInt _ he)) (isBytes_derInt _ hd)) (isBytes_derInt _ hp))
      (isBytes_derInt _ hq)) (isBytes_derInt _ hdp)) (isBytes_derInt _ hdq))
      (isBytes_derInt _ hqi)
  · simp only [List.length_append]
    omega

theorem pkcs8Encode_length_le (sk : RSAPrivateKey)
    (hn : sk.n < 2 ^ 8192) (he : sk.e < 2 ^ 8192) (hd : sk.d < 2 ^ 8192)
    (hp : sk.p < 2 ^ 8192) (hq : sk.q < 2 ^ 8192) (hdp : sk.dp < 2 ^ 8192)
    (hdq : sk.dq < 2 ^ 8192) (hqi : sk.qi < 2 ^ 8192) :
    (pkcs8Encode sk).length ≤ 9300 := by
  unfold pkcs8Encode derSeq derOcts
  have h0 : (derInt 0).length = 3 := rfl
  have hR := rsaPrivateKeyDER_length_le sk hn he hd hp hq hdp hdq hqi
  have h1 := derTLV_length_le 4 (rsaPrivateKeyDER sk) (by omega)
  have hA : algIdRSA.length = 15 := rfl
  have h2 := derTLV_length_le 48 (derInt 0 ++ algIdRSA ++ derTLV 4 (rsaPrivateKeyDER sk))
    (by simp only [List.length_append]; rw [hA]; omega)
  simp only [List.length_append] at h2
  rw [hA] at h2
  omega

theorem isBytes_pkcs8Encode (sk : RSAPrivateKey)
    (hn : sk.n < 2 ^ 8192) (he : sk.e < 2 ^ 8192) (hd : sk.d < 2 ^ 8192)
    (hp : sk.p < 2 ^ 8192) (hq : sk.q < 2 ^ 8192) (hdp : sk.dp < 2 ^ 8192)
    (hdq : sk.dq < 2 ^ 8192) (hqi : sk.qi < 2 ^ 8192) :
    IsBytes (pkcs8Encode sk) := by
  unfold pkcs8Encode derSeq derOcts
  have h0 : (derInt 0).length = 3 := rfl
  have hR := rsaPrivateKeyDER_length_le sk hn he hd hp hq hdp hdq hqi
  have h1 := derTLV_length_le 4 (rsaPrivateKeyDER sk) (by omega)
  refine isBytes_derTLV 48 (by norm_num) _ ?_ ?_
  · refine isBytes_append (isBytes_append (isBytes_derInt _ (by norm_num)) (by decide)) ?_
    refine isBytes_derTLV 4 (by norm_num) _
      (isBytes_rsaPrivateKeyDER sk hn he hd hp hq hdp hdq hqi) (by omega)
  · simp only [List.length_append]
    rw [show algIdRSA.length = 15 from rfl]
    omega

theorem spkiDecode_spkiEncode (pk : RSAPublicKey)
    (hn : pk.n < 2 ^ 8192) (he : pk.e < 2 ^ 8192) :
    spkiDecode (spkiEncode pk) = some pk := by
  have hA : algIdRSA.length = 15 := rfl
  have hK := rsaPublicKeyDER_length_le pk hn he
  have hB := derTLV_length_le 3 (0 :: rsaPublicKeyDER pk)
    (by rw [List.length_cons]; omega)
  rw [List.length_cons] at hB
  have hC : (algIdRSA ++ derBits (rsaPublicKeyDER pk)).length < 2 ^ 8192 := by
    rw [List.length_append, hA]
    unfold derBits
    have : (2066 : Nat) + 15 < 2 ^ 8192 := by norm_num
    omega
  unfold spkiDecode spkiEncode derSeq
  rw [parseTLV_der_nil 48 _ hC, Option.some_bind]
  dsimp only
  rw [if_pos ⟨rfl, List.take_left' hA⟩, List.drop_left' hA]
  unfold derBits
  rw [parseTLV_der_nil 3 _ (by rw [List.length_cons]; omega), Option.some_bind]
  dsimp only
  rw [if_pos ⟨rfl, rfl⟩, show List.drop 1 (0 :: rsaPublicKeyDER pk) = rsaPublicKeyDER pk from rfl]
  unfold rsaPublicKeyDER derSeq
  have h1 := derInt_length_le pk.n hn
  have h2 := derInt_length_le pk.e he
  rw [parseTLV_der_nil 48 _ (by rw [List.length_append]; omega), Option.some_bind]
  dsimp only
  rw [if_pos rfl, parseInt_der pk.n hn (derInt pk.e), Option.some_bind]
  dsimp only
  rw [parseInt_der_nil pk.e he, Option.some_bind]
  dsimp only
  rw [if_pos rfl]

theorem pkcs8Decode_pkcs8Encode (sk : RSAPrivateKey)
    (hn : sk.n < 2 ^ 8192) (he : sk.e < 2 ^ 8192) (hd : sk.d < 2 ^ 8192)
    (hp : sk.p < 2 ^ 8192) (hq : sk.q < 2 ^ 8192) (hdp : sk.dp < 2 ^ 8192)
    (hdq : sk.dq < 2 ^ 8192) (hqi : sk.qi < 2 ^ 8192) :
    pkcs8Decode (pkcs8Encode sk) = some sk := by
  have hA : algIdRSA.length = 15 := rfl
  have h0 : (derInt 0).length = 3 := rfl
  have h1 := derInt_length_le sk.n hn
  have h2 := derInt_length_le sk.e he
  have h3 := derInt_length_le sk.d hd
  have h4 := derInt_length_le sk.p hp
  have h5 := derInt_length_le sk.q hq
  have h6 := derInt_length_le sk.dp hdp
  have h7 := derInt_length_le sk.dq hdq
  have h8 := derInt_length_le sk.qi hqi
  have hR := rsaPrivateKeyDER_length_le sk hn he hd hp hq hdp hdq hqi
  have hO := derTLV_length_le 4 (rsaPrivateKeyDER sk) (by omega)
  have hC : (derInt 0 ++ algIdRSA ++ derOcts (rsaPrivateKeyDER sk)).length < 2 ^ 8192 := by
    simp only [List.length_append]
    rw [hA, h0]
    unfold derOcts
    have : (9274 : Nat) + 18 < 2 ^ 8192 := by norm_num
    omega
  unfold pkcs8Decode pkcs8Encode derSeq
  rw [parseTLV_der_nil 48 _ hC, Option.some_bind]
  dsimp only
  rw [if_pos rfl, List.append_assoc, parseInt_der 0 (by norm_num), Option.some_bind]
  dsimp only
  rw [if_pos ⟨rfl, List.take_left' hA⟩, List.drop_left' hA]
  unfold derOcts
  rw [parseTLV_der_nil 4 _ (by omega), Option.some_bind]
  dsimp only
  rw [if_pos rfl]
  unfold rsaPrivateKeyDER derSeq
  rw [parseTLV_der_nil 48 _ (by simp only [List.length_append]; omega), Option.some_bind]
  dsimp only
  rw [if_pos rfl, List.append_assoc, List.append_assoc, List.append_assoc,
    List.append_assoc, List.append_assoc, List.append_assoc, List.append_assoc]
  rw [parseInt_der 0 (by norm_num), Option.some_bind]
  dsimp only
  rw [if_pos rfl, parseInt_der sk.n hn, Option.some_bind]
  dsimp only
  rw [parseInt_der sk.e he, Option.some_bind]
  dsimp only
  rw [parseInt_der sk.d hd, Option.some_bind]
  dsimp only
  rw [parseInt_der sk.p hp, Option.some_bind]
  dsimp only
  rw [parseInt_der sk.q hq, Option.some_bind]
  dsimp only
  rw [parseInt_der sk.dp hdp, Option.some_bind]
  dsimp only
  rw [parseInt_der sk.dq hdq, Option.some_bind]
  dsimp only
  rw [parseInt_der_nil sk.qi hqi, Option.some_bind]
  dsimp only
  rw [if_pos rfl]

theorem importRSAKeyPair_exportRSAKeyPair (kp : CryptoKeyPair)
    (hn : kp.publicKey.n < 2 ^ 8192) (he : kp.publicKey.e < 2 ^ 8192)
    (hn2 : kp.privateKey.n < 2 ^ 8192) (he2 : kp.privateKey.e < 2 ^ 8192)
    (hd : kp.privateKey.d < 2 ^ 8192) (hp : kp.privateKey.p < 2 ^ 8192)
    (hq : kp.privateKey.q < 2 ^ 8192) (hdp : kp.privateKey.dp < 2 ^ 8192)
    (hdq : kp.privateKey.dq < 2 ^ 8192) (hqi : kp.privateKey.qi < 2 ^ 8192) :
    AsymmetricEncryption.importRSAKeyPairFromBase64
      (AsymmetricEncryption.exportRSAKeyPairToBase64 kp).publicKey
      (AsymmetricEncryption.exportRSAKeyPairToBase64 kp).privateKey = Except.ok kp := by
  have e1 := atob_btoa (spkiEncode kp.publicKey) (isBytes_spkiEncode _ hn he)
  have e2 := atob_btoa (pkcs8Encode kp.privateKey)
    (isBytes_pkcs8Encode _ hn2 he2 hd hp hq hdp hdq hqi)
  have e3 := spkiDecode_spkiEncode kp.publicKey hn he
  have e4 := pkcs8Decode_pkcs8Encode kp.privateKey hn2 he2 hd hp hq hdp hdq hqi
  unfold AsymmetricEncryption.importRSAKeyPairFromBase64
    AsymmetricEncryption.exportRSAKeyPairToBase64
  dsimp only
  rw [e1, e2]
  dsimp only
  rw [e3, e4]

/-- A concrete RSA-2048 modulus (key pair A), generated offline with
public exponent 65537; the witnesses below run the embedded
operations on it. -/
def nA : Nat := 17333700368577790943756721031771091833285986219570318152291545848179090533425577760955471841415538581462635374876832542086439951294703706643205903022558091161309293211447013499242631488116872391954673748114600071035648429193900306065958672740234154880869710643892754631060091120045097672427392326750067971061074885512220482914021081538810184929235395104738509881441710563324144204273308358754514184815124717082764992235309431539946663159632654830258347327685721905950546449222707198348360592472023217479147409271632857624224346171963321483720558441808152699224349816639425257603075972285389044199382039491200712164579

/-- Private exponent of key pair A. -/
def dA : Nat := 4328465956359916347865337413147531980372031180499230079517330570187449930951619586598666011881624069684708778667726672986490578191151159056248931228400360726008319545477151829071444918424350750423946979946739818156673396218514357674633362203492714980894353564286233363056196060623739963045462702342619243791990706749349536489422289250261376642647561993372009230471054200302872328053194590842803758584720984375260117770889624643253310652033854855025476465228920643327052592450749324700844871563736261176555431213256714684575895215325585995662418062390020156316386433158318374553376230698652699538024150681449821331117

/-- First prime of key pair A. -/
def pA : Nat := 143810891872532733122227371593647189381447673275381791041256343498063205568143224868658727363706696873728844402768727626971507556241814136552962691099295070135522483828268001364206848594966471768963502752236493416054197716057951080417588017059320013675167904228568117021150795618134482832696769000008630234237

/-- Second prime of key pair A. -/
def qA : Nat := 120531206940442136093099952901066716714216267757688663717402731924743198844347322021578171308809535714127813938019098691937471438388687039139092674733274032556642262944482978541743163835348068998325833412970938142174581884349785215088256999869986882823507923232603417010716351315288414923039261312726594131167

/-- CRT exponent d mod (p - 1) of key pair A. -/
def dpA : Nat := 25285455651726424520002838135306720833154119644662166076695558938129336371236315061134237383645761448891122176070068029442798443178272186635027375216094375591980493174132660630174642055019281538577695686620094200729244858356894125450537356311313372866914258516956687252006051816649581849659961078277910892917

/-- CRT exponent d mod (q - 1) of key pair A. -/
def dqA : Nat := 93536424520254918588873010735849247682504923354567461861290348092840904375004355565488872157632240976621244321127200518382712969544077912073715829901575965054828094833353064767299625700016287611362338244812685093502251553414799674293508441893703753200799387638844884351557485260909921030423330196743241999435

/-- CRT coefficient q^-1 mod p of key pair A. -/
def qiA : Nat := 22181636132616354066859039344967931021166457914073786572460594747696994806350697638440143914449272966586216535413167372711868833721814885908125996166178914625534032531037325321056894770250410820935666163105013786124442694552603952736477081897114309475746268961974931706613041224270342428659855527000911990363

/-- Public key handle of key pair A. -/
def pkA : RSAPublicKey := ⟨nA, 65537⟩

/-- Private key handle of key pair A. -/
def skA : RSAPrivateKey := ⟨nA, 65537, dA, pA, qA, dpA, dqA, qiA⟩

/-- The private key a generation run drawing key pair A's primes in
the opposite order would produce: the same modulus and private
exponent, the primes and CRT values swapped, the coefficient
p^-1 mod q.  A well-formed RSA private key distinct from skA whose
decryption map agrees with skA's. -/
def skSwap : RSAPrivateKey := ⟨nA, 65537, dA, qA, pA, dqA, dpA, 101940268937306000802644927300727665874364610773791909223298161970514978205290306423176183267783756880109603093456866440390336584399215045481791147111717510561528111083851133485572899065174577654057549236043466648950454354337741779406244299149118979046676084996436171476930375195976143786325065350117131864907⟩

/-- Modulus of an independently generated RSA-2048 key pair B. -/
def nB : Nat := 20041556490794213025962916217328898773943199050941134970867168776096427602371822656401595729890634882642307705585861736846132405798357301163990929068148408496521269043553040924469076299746919973718090472646397867363559735971816100204331148084726616725275069900732562225827032952533129957500346574864183243658657470978372828978536870826517015521108554918199119446693191306273524990951453323693341002699381697451992756137875010693363634905593480517521547530359406101754504067528435197511967581938238140941249131105936872838542279851745298572600692772600173645482587874132949307080091386869572636701058887923213726163343

/-- Private exponent of key pair B. -/
def dB : Nat := 15393011390826823120906806089925804487315636471430992720044704632705033489372233474718566956982696758360669555645970007566518467098983980215613278080692102019941324726128536063202090797931869994004513511926531318974199961393981036969730269465993240146534719601496471492427629136193411806166553934302203758987864847458425560016609468710209708150052068518090645911615355882811446245242608125800473573021108572910438034447907109398238815424148628256972564665388158672781587997180241880765472564430872199255638748648341875976161077883422200567873258015451929258756627638904131439839728524605098791985436185474866550704897

/-- Private key handle of key pair B, with its primes and CRT
values. -/
def skB : RSAPrivateKey := ⟨nB, 65537, dB, 118225193945437625013539119731849074081246568775989762937653328236632679761433803063448346869090643531664686678331487732548781265671893766561223586605580563836745345681330180568506164942002053232408777302827559983657737753550089801974946416600622678789006693250326096022492381444875676530887711091612179035277, 169520182813518045979332365140744104569377356294818711299729441565703647520581966184055947409192982106290850300045584534392864478040852285027175293174841213813997346862968173735284854394796336385397953330954562261876187019407844684947311228880330372464140908098531066811407645025691089017327659518618212466059, 101069669670278374302051608422971879603124975339310289578526679907744009475469607767151693395098058885035589064602869572783474494892948899997340035197687752721078649960905839857053189850093062490687192974129418545316265210768739511043385002103896834223593969860323484166992395978028434761982479962917978467269, 66360075836257464784774582719468239356811817381686284669645525784947847431840492278437452595981597508840681820157612817642689445414621746072786092533996846672842851118748928043376000419587408791482437290471631213336490501287948111636530045270990062187276423963071463738753118591545308585067078214598627352743, 72641019586749445140478157217431877426188853180613783469991408659983678856143736356491489604261044592761066164810242729629746022754051274886392867202890557107253825891422204029644322577302804814074366217219187628642065823209930122859000073587703903527660596765404905896226090767406422856197376751903014385468⟩

/-- A fixed 32-byte OAEP seed for the witnesses. -/
def seedW : Bytes := List.replicate 32 0

/-- A second, different 32-byte OAEP seed. -/
def seedW2 : Bytes := List.replicate 31 0 ++ [1]

/-- A placeholder 32-byte digest function standing in for SHA-256 in
the witnesses: every theorem above holds for any GoodHash, so the
witnesses may instantiate the hash with the constant zero digest. -/
def zeroHash : Bytes → Bytes := fun _ => List.replicate 32 0

theorem zeroHash_good : GoodHash zeroHash := fun _ =>
  ⟨List.length_replicate _ _, fun b hb => by
    rw [List.eq_of_mem_replicate hb]; omega⟩

/-- Spec-side strict UTF-8 decoder (a TextDecoder constructed with
fatal: true): the WHATWG UTF-8 decoder that fails on the first
error instead of emitting a replacement character.  The source never
constructs this decoder; the definition follows the design
document's words "the decrypted bytes are not valid UTF-8" and is
used only to witness that a byte string is not valid UTF-8. -/
def utf8DecodeStrict : Bytes → Option (List Nat)
  | [] => some []
  | b :: bs =>
    if b < 128 then (utf8DecodeStrict bs).map (fun r => b :: r)
    else if b < 194 then none
    else if b < 224 then
      match bs with
      | [] => none
      | b1 :: bs1 =>
        if 128 ≤ b1 ∧ b1 < 192 then
          (utf8DecodeStrict bs1).map (fun r => ((b - 192) * 64 + (b1 - 128)) :: r)
        else none
    else if b < 240 then
      match bs with
      | [] => none
      | b1 :: bs1 =>
        if (if b = 224 then 160 else 128) ≤ b1 ∧
            b1 ≤ (if b = 237 then 159 else 191) then
          match bs1 with
          | [] => none
          | b2 :: bs2 =>
            if 128 ≤ b2 ∧ b2 < 192 then
              (utf8DecodeStrict bs2).map
                (fun r => ((b - 224) * 4096 + (b1 - 128) * 64 + (b2 - 128)) :: r)
            else none
        else none
    else if b < 245 then
      match bs with
      | [] => none
      | b1 :: bs1 =>
        if (if b = 240 then 144 else 128) ≤ b1 ∧
            b1 ≤ (if b = 244 then 143 else 191) then
          match bs1 with
          | [] => none
          | b2 :: bs2 =>
            if 128 ≤ b2 ∧ b2 < 192 then
              match bs2 with
              | [] => none
              | b3 :: bs3 =>
                if 128 ≤ b3 ∧ b3 < 192 then
                  (utf8DecodeStrict bs3).map
                    (fun r => ((b - 240) * 262144 + (b1 - 128) * 4096 +
                      (b2 - 128) * 64 + (b3 - 128)) :: r)
                else none
            else none
        else none
    else none

/-- State-passing form of the encrypt method: the pair of the
method's result and the receiver afterwards.  The method body
assigns to neither this.publicKey nor this.privateKey, so the
receiver afterwards carries the same two fields it started with. -/
def AsymmetricEncryption.encryptM (hash : Bytes → Bytes) (self : AsymmetricEncryption)
    (seed : Bytes) (data : List Nat) :
    Except JsError (List Nat) × AsymmetricEncryption :=
  ((subtleEncrypt hash self.publicKey seed (utf8Encode data)).map btoa,
    { publicKey := self.publicKey, privateKey := self.privateKey })

/-- State-passing form of the decrypt method, as encryptM. -/
def AsymmetricEncryption.decryptM (hash : Bytes → Bytes) (self : AsymmetricEncryption)
    (encryptedBase64Data : List Nat) :
    Except JsError (List Nat) × AsymmetricEncryption :=
  (match atob encryptedBase64Data with
    | none => .error .invalidCharacterError
    | some encryptedData =>
      (subtleDecrypt hash self.privateKey encryptedData).map utf8DecodeReplace,
    { publicKey := self.publicKey, privateKey := self.privateKey })

/-- The services the React context carries: the single encryption
service instance. -/
structure IServices where
  encryptionService : AsymmetricEncryption

/-- Embedding of the useServices hook: useContext yields the context
value or null (none); on null the hook throws an Error with the
fixed message, otherwise it returns the context value unchanged. -/
def useServices (context : Option IServices) : Except String IServices :=
  match context with
  | none => .error ("useServices must be used within a ServicesProvider")
  | some ctx => .ok ctx

theorem oaepPad_seed_inj (hash : Bytes → Bytes) (hh : GoodHash hash) (k : Nat)
    (msg seed1 seed2 : Bytes) (hs1 : seed1.length = 32) (hs2 : seed2.length = 32)
    (h : oaepPad hash k msg seed1 = oaepPad hash k msg seed2) : seed1 = seed2 := by
  simp only [oaepPad] at h
  generalize hd1 : xorBytes (hash [] ++ List.replicate (k - msg.length - 2 * 32 - 2) 0 ++ 1 :: msg)
    (mgf1 hash seed1 (k - 32 - 1)) = mdb1 at h
  generalize hd2 : xorBytes (hash [] ++ List.replicate (k - msg.length - 2 * 32 - 2) 0 ++ 1 :: msg)
    (mgf1 hash seed2 (k - 32 - 1)) = mdb2 at h
  have h2 : xorBytes seed1 (mgf1 hash mdb1 32) ++ mdb1
      = xorBytes seed2 (mgf1 hash mdb2 32) ++ mdb2 := by
    injection h
  have hl1 : (xorBytes seed1 (mgf1 hash mdb1 32)).length = 32 := by
    rw [length_xorBytes, hs1, length_mgf1 hash hh]
    exact Nat.min_self 32
  have hl2 : (xorBytes seed2 (mgf1 hash mdb2 32)).length = 32 := by
    rw [length_xorBytes, hs2, length_mgf1 hash hh]
    exact Nat.min_self 32
  obtain ⟨hms, hmdb⟩ := List.append_inj h2 (hl1.trans hl2.symm)
  rw [hmdb] at hms
  exact xorBytes_left_inj seed1 seed2 _
    (by rw [length_mgf1 hash hh]; omega)
    (by rw [length_mgf1 hash hh]; omega) hms

theorem encrypt_seed_inj (hash : Bytes → Bytes) (hh : GoodHash hash)
    (A : AsymmetricEncryption) (k : Nat)
    (hk : byteLength A.publicKey.n = k) (hnn : A.privateKey.n = A.publicKey.n)
    (hlo : 256 ^ (k - 1) ≤ A.publicKey.n) (hhi : A.publicKey.n ≤ 256 ^ k)
    (data : List Nat) (hdata : ∀ c ∈ data, IsUSV c)
    (hdlen : (utf8Encode data).length + 2 * 32 + 2 ≤ k)
    (seed1 seed2 : Bytes) (hs1l : seed1.length = 32) (hs1b : IsBytes seed1)
    (hs2l : seed2.length = 32) (hs2b : IsBytes seed2) (hne : seed1 ≠ seed2)
    (hrsa1 : powMod (powMod (os2ip (oaepPad hash k (utf8Encode data) seed1))
        A.publicKey.e A.publicKey.n) A.privateKey.d A.privateKey.n
      = os2ip (oaepPad hash k (utf8Encode data) seed1))
    (hrsa2 : powMod (powMod (os2ip (oaepPad hash k (utf8Encode data) seed2))
        A.publicKey.e A.publicKey.n) A.privateKey.d A.privateKey.n
      = os2ip (oaepPad hash k (utf8Encode data) seed2)) :
    A.encrypt hash seed1 data ≠ A.encrypt hash seed2 data := by
  have hn0 : 0 < A.publicKey.n :=
    lt_of_lt_of_le (Nat.pos_pow_of_pos _ (by norm_num)) hlo
  intro heq
  have henc1 : A.encrypt hash seed1 data =
      .ok (btoa (i2osp (powMod (os2ip (oaepPad hash k (utf8Encode data) seed1))
        A.publicKey.e A.publicKey.n) k)) := by
    show (subtleEncrypt hash A.publicKey seed1 (utf8Encode data)).map btoa = _
    simp only [subtleEncrypt, hk]
    rw [if_neg (by omega)]
    rfl
  have henc2 : A.encrypt hash seed2 data =
      .ok (btoa (i2osp (powMod (os2ip (oaepPad hash k (utf8Encode data) seed2))
        A.publicKey.e A.publicKey.n) k)) := by
    show (subtleEncrypt hash A.publicKey seed2 (utf8Encode data)).map btoa = _
    simp only [subtleEncrypt, hk]
    rw [if_neg (by omega)]
    rfl
  rw [henc1, henc2] at heq
  have hb : btoa (i2osp (powMod (os2ip (oaepPad hash k (utf8Encode data) seed1))
        A.publicKey.e A.publicKey.n) k)
      = btoa (i2osp (powMod (os2ip (oaepPad hash k (utf8Encode data) seed2))
        A.publicKey.e A.publicKey.n) k) := by
    injection heq
  have hx := btoa_inj _ _ (isBytes_i2osp _ _) (isBytes_i2osp _ _) hb
  have hc := congrArg os2ip hx
  rw [os2ip_i2osp _ k (lt_of_lt_of_le (powMod_lt _ _ _ hn0) hhi),
    os2ip_i2osp _ k (lt_of_lt_of_le (powMod_lt _ _ _ hn0) hhi)] at hc
  have hx12 : os2ip (oaepPad hash k (utf8Encode data) seed1)
      = os2ip (oaepPad hash k (utf8Encode data) seed2) := by
    rw [← hrsa1, ← hrsa2, hc]
  have hEM := os2ip_inj _ _
    (isBytes_oaepPad hash hh k _ _ (isBytes_utf8Encode data hdata) hs1b)
    (isBytes_oaepPad hash hh k _ _ (isBytes_utf8Encode data hdata) hs2b)
    (by rw [oaepPad_length hash hh k _ _ hdlen hs1l,
      oaepPad_length hash hh k _ _ hdlen hs2l]) hx12
  exact hne (oaepPad_seed_inj hash hh k _ _ _ hs1l hs2l hEM)

/-- C1: for every text m (a string of Unicode scalar values) whose
UTF-8 encoding is at most 190 bytes, encrypt(m) followed by decrypt
on the same AsymmetricEncryption instance returns exactly m, for any
instance holding a well-formed RSA-2048 key pair (modulus of 256
bytes, private operation inverting the public one at the padded
block, the randomness of OAEP given as the 32-byte seed). -/
theorem claim_C1 (hash : Bytes → Bytes) (hh : GoodHash hash)
    (A : AsymmetricEncryption)
    (hk : byteLength A.publicKey.n = 256) (hnn : A.privateKey.n = A.publicKey.n)
    (hlo : 256 ^ 255 ≤ A.publicKey.n) (hhi : A.publicKey.n ≤ 256 ^ 256)
    (data : List Nat) (hdata : ∀ c ∈ data, IsUSV c)
    (hdlen : (utf8Encode data).length ≤ 190)
    (seed : Bytes) (hsl : seed.length = 32) (hsb : IsBytes seed)
    (hrsa : powMod (powMod (os2ip (oaepPad hash 256 (utf8Encode data) seed))
        A.publicKey.e A.publicKey.n) A.privateKey.d A.privateKey.n
      = os2ip (oaepPad hash 256 (utf8Encode data) seed)) :
    (A.encrypt hash seed data).bind (A.decrypt hash) = .ok data :=
  encrypt_then_decrypt hash hh A 256 hk hnn hlo hhi data hdata (by omega)
    seed hsl hsb hrsa

/-- C2: exporting a key pair with exportRSAKeyPairToBase64 and
importing the two Base64 strings back with
importRSAKeyPairFromBase64 returns exactly the original key pair
(serialization is lossless), and an instance wrapping the
reimported keys reproduces any original plaintext within the size
limit by encrypt then decrypt. -/
theorem claim_C2 (hash : Bytes → Bytes) (hh : GoodHash hash) (kp : CryptoKeyPair)
    (hpe : kp.publicKey.e < 2 ^ 8192)
    (hsn : kp.privateKey.n < 2 ^ 8192) (hse : kp.privateKey.e < 2 ^ 8192)
    (hsd : kp.privateKey.d < 2 ^ 8192) (hsp : kp.privateKey.p < 2 ^ 8192)
    (hsq : kp.privateKey.q < 2 ^ 8192) (hsdp : kp.privateKey.dp < 2 ^ 8192)
    (hsdq : kp.privateKey.dq < 2 ^ 8192) (hsqi : kp.privateKey.qi < 2 ^ 8192)
    (hk : byteLength kp.publicKey.n = 256) (hnn : kp.privateKey.n = kp.publicKey.n)
    (hlo : 256 ^ 255 ≤ kp.publicKey.n) (hhi : kp.publicKey.n ≤ 256 ^ 256)
    (data : List Nat) (hdata : ∀ c ∈ data, IsUSV c)
    (hdlen : (utf8Encode data).length ≤ 190)
    (seed : Bytes) (hsl : seed.length = 32) (hsb : IsBytes seed)
    (hrsa : powMod (powMod (os2ip (oaepPad hash 256 (utf8Encode data) seed))
        kp.publicKey.e kp.publicKey.n) kp.privateKey.d kp.privateKey.n
      = os2ip (oaepPad hash 256 (utf8Encode data) seed)) :
    AsymmetricEncryption.importRSAKeyPairFromBase64
        (AsymmetricEncryption.exportRSAKeyPairToBase64 kp).publicKey
        (AsymmetricEncryption.exportRSAKeyPairToBase64 kp).privateKey = .ok kp ∧
      ((AsymmetricEncryption.mk kp.publicKey kp.privateKey).encrypt hash seed data).bind
        ((AsymmetricEncryption.mk kp.publicKey kp.privateKey).decrypt hash) = .ok data := by
  have hn8192 : kp.publicKey.n < 2 ^ 8192 := by
    refine lt_of_le_of_lt hhi ?_
    rw [← two_pow_eq_256_pow]
    exact Nat.pow_lt_pow_right (by norm_num) (by norm_num)
  exact ⟨importRSAKeyPair_exportRSAKeyPair kp hn8192 hpe hsn hse hsd hsp hsq
      hsdp hsdq hsqi,
    encrypt_then_decrypt hash hh ⟨kp.publicKey, kp.privateKey⟩ 256 hk hnn hlo hhi
      data hdata (by omega) seed hsl hsb hrsa⟩

/-- C3: on an instance whose public modulus is 256 bytes, encrypt
succeeds on every plaintext whose UTF-8 encoding is exactly 190
bytes, and deterministically fails with the too-large error (the
design document's PlaintextTooLargeError) on every plaintext whose
UTF-8 encoding is 191 bytes or more, whatever the OAEP randomness. -/
theorem claim_C3 (hash : Bytes → Bytes) (A : AsymmetricEncryption)
    (hk : byteLength A.publicKey.n = 256)
    (data1 data2 : List Nat) (seed1 seed2 : Bytes)
    (h190 : (utf8Encode data1).length = 190)
    (h191 : 191 ≤ (utf8Encode data2).length) :
    (∃ c, A.encrypt hash seed1 data1 = .ok c) ∧
      A.encrypt hash seed2 data2 = .error .messageTooLongError := by
  constructor
  · refine ⟨btoa (i2osp (powMod (os2ip (oaepPad hash 256 (utf8Encode data1) seed1))
      A.publicKey.e A.publicKey.n) 256), ?_⟩
    show (subtleEncrypt hash A.publicKey seed1 (utf8Encode data1)).map btoa = _
    simp only [subtleEncrypt, hk]
    rw [if_neg (by omega)]
    rfl
  · show (subtleEncrypt hash A.publicKey seed2 (utf8Encode data2)).map btoa = _
    simp only [subtleEncrypt, hk]
    rw [if_pos (by omega)]
    rfl

/-- C4: encryption is non-deterministic across the OAEP randomness:
two calls of encrypt on the same plaintext under the same public key
with different 32-byte seeds produce different ciphertext strings,
and both ciphertexts decrypt back to the original plaintext. -/
theorem claim_C4 (hash : Bytes → Bytes) (hh : GoodHash hash)
    (A : AsymmetricEncryption)
    (hk : byteLength A.publicKey.n = 256) (hnn : A.privateKey.n = A.publicKey.n)
    (hlo : 256 ^ 255 ≤ A.publicKey.n) (hhi : A.publicKey.n ≤ 256 ^ 256)
    (data : List Nat) (hdata : ∀ c ∈ data, IsUSV c)
    (hdlen : (utf8Encode data).length ≤ 190)
    (seed1 seed2 : Bytes) (hs1l : seed1.length = 32) (hs1b : IsBytes seed1)
    (hs2l : seed2.length = 32) (hs2b : IsBytes seed2) (hne : seed1 ≠ seed2)
    (hrsa1 : powMod (powMod (os2ip (oaepPad hash 256 (utf8Encode data) seed1))
        A.publicKey.e A.publicKey.n) A.privateKey.d A.privateKey.n
      = os2ip (oaepPad hash 256 (utf8Encode data) seed1))
    (hrsa2 : powMod (powMod (os2ip (oaepPad hash 256 (utf8Encode data) seed2))
        A.publicKey.e A.publicKey.n) A.privateKey.d A.privateKey.n
      = os2ip (oaepPad hash 256 (utf8Encode data) seed2)) :
    A.encrypt hash seed1 data ≠ A.encrypt hash seed2 data ∧
      (A.encrypt hash seed1 data).bind (A.decrypt hash) = .ok data ∧
      (A.encrypt hash seed2 data).bind (A.decrypt hash) = .ok data :=
  ⟨encrypt_seed_inj hash hh A 256 hk hnn hlo hhi data hdata (by omega)
      seed1 seed2 hs1l hs1b hs2l hs2b hne hrsa1 hrsa2,
    encrypt_then_decrypt hash hh A 256 hk hnn hlo hhi data hdata (by omega)
      seed1 hs1l hs1b hrsa1,
    encrypt_then_decrypt hash hh A 256 hk hnn hlo hhi data hdata (by omega)
      seed2 hs2l hs2b hrsa2⟩

/-- C5 (amended): on Base64-decodable input, decrypt fails with the
single decryption error exactly when the RSA-OAEP decryption step
fails; when that step succeeds, decrypt never raises on malformed
UTF-8 — it returns the bytes decoded by the default TextDecoder,
which substitutes U+FFFD for every invalid sequence.  The original
claim, that a successful OAEP decryption with non-UTF-8 bytes ends
in DecryptionError, is refuted by the counterexample theorem. -/
theorem claim_C5 (hash : Bytes → Bytes) (A : AsymmetricEncryption)
    (s bytes : List Nat) (hatob : atob s = some bytes) :
    (subtleDecrypt hash A.privateKey bytes = .error .decryptionError →
      A.decrypt hash s = .error .decryptionError) ∧
    ∀ m, subtleDecrypt hash A.privateKey bytes = .ok m →
      A.decrypt hash s = .ok (utf8DecodeReplace m) := by
  constructor
  · intro hfail
    unfold AsymmetricEncryption.decrypt
    rw [hatob]
    dsimp only
    rw [hfail]
    rfl
  · intro m hok
    unfold AsymmetricEncryption.decrypt
    rw [hatob]
    dsimp only
    rw [hok]
    rfl

/-- C6 (amended): decrypting a ciphertext produced under key pair A
with the private key of another instance B fails with the single
decryption error whenever B's RSA-OAEP decryption of the block
fails, and this is the only error such a decryption can surface on
Base64-valid input.  The original universally quantified claim —
that decryption under the private key of any other validly
generated pair always fails — is refuted by the counterexample
theorem, which decrypts successfully under a distinct well-formed
private key sharing A's modulus. -/
theorem claim_C6 (hash : Bytes → Bytes) (A B : AsymmetricEncryption)
    (data : List Nat) (seed : Bytes) (c : List Nat)
    (henc : A.encrypt hash seed data = .ok c)
    (bytes : List Nat) (hatob : atob c = some bytes)
    (hfail : subtleDecrypt hash B.privateKey bytes = .error .decryptionError) :
    B.decrypt hash c = .error .decryptionError := by
  unfold AsymmetricEncryption.decrypt
  rw [hatob]
  dsimp only
  rw [hfail]
  rfl

/-- C7: on every input string that atob rejects (not valid forgiving
Base64), decrypt fails with the Base64 decoding error (the design
document's DecodingError, the platform's InvalidCharacterError) and
never reaches the RSA decryption step: the error is decided by the
Base64 decode alone, for every private key and hash. -/
theorem claim_C7 (hash : Bytes → Bytes) (A : AsymmetricEncryption)
    (s : List Nat) (hbad : atob s = none) :
    A.decrypt hash s = .error .invalidCharacterError := by
  unfold AsymmetricEncryption.decrypt
  rw [hbad]

/-- C8: importRSAKeyPairFromBase64 succeeds on any pair of
well-formed SPKI and PKCS#8 RSA encodings and returns exactly the
two encoded keys, with no hypothesis relating the public key to the
private key: no pairing cross-check is performed at import. -/
theorem claim_C8 (pk : RSAPublicKey) (sk : RSAPrivateKey)
    (hn : pk.n < 2 ^ 8192) (he : pk.e < 2 ^ 8192)
    (hn2 : sk.n < 2 ^ 8192) (he2 : sk.e < 2 ^ 8192) (hd : sk.d < 2 ^ 8192)
    (hp : sk.p < 2 ^ 8192) (hq : sk.q < 2 ^ 8192) (hdp : sk.dp < 2 ^ 8192)
    (hdq : sk.dq < 2 ^ 8192) (hqi : sk.qi < 2 ^ 8192) :
    AsymmetricEncryption.importRSAKeyPairFromBase64
      (btoa (spkiEncode pk)) (btoa (pkcs8Encode sk)) = .ok ⟨pk, sk⟩ := by
  have h := importRSAKeyPair_exportRSAKeyPair ⟨pk, sk⟩ hn he hn2 he2 hd hp hq hdp hdq hqi
  unfold AsymmetricEncryption.exportRSAKeyPairToBase64 at h
  dsimp only at h
  exact h

/-- C9: an instance's key pair is fixed at construction and no
method changes it: in the state-passing reading of the two instance
methods, the receiver after encrypt and after decrypt carries
exactly the publicKey and privateKey it started with, and each
method's result is the pure function of the unchanged keys (the
export and import operations are static and take no receiver at
all). -/
theorem claim_C9 (hash : Bytes → Bytes) (self : AsymmetricEncryption)
    (seed : Bytes) (data s : List Nat) :
    (self.encryptM hash seed data).2 = self ∧
      (self.decryptM hash s).2 = self ∧
      (self.encryptM hash seed data).1 = self.encrypt hash seed data ∧
      (self.decryptM hash s).1 = self.decrypt hash s :=
  ⟨rfl, rfl, rfl, rfl⟩

/-- C10: useServices on a null context (no ServicesProvider above
the caller) throws the Error whose message is exactly "useServices
must be used within a ServicesProvider", and on a provided context
value it returns that value unchanged. -/
theorem claim_C10 :
    useServices none = .error ("useServices must be used within a ServicesProvider") ∧
      ∀ v : IServices, useServices (some v) = .ok v :=
  ⟨rfl, fun _ => rfl⟩

/-- Witness for C1: the concrete RSA-2048 key pair A, the zero
digest, the zero seed and the plaintext "Hello, World!". -/
theorem claim_C1_witness :
    ((AsymmetricEncryption.mk pkA skA).encrypt zeroHash seedW
        [72, 101, 108, 108, 111, 44, 32, 87, 111, 114, 108, 100, 33]).bind
      ((AsymmetricEncryption.mk pkA skA).decrypt zeroHash) =
        .ok [72, 101, 108, 108, 111, 44, 32, 87, 111, 114, 108, 100, 33] :=
  claim_C1 zeroHash zeroHash_good ⟨pkA, skA⟩ (by decide) rfl (by decide) (by decide)
    [72, 101, 108, 108, 111, 44, 32, 87, 111, 114, 108, 100, 33] (by decide)
    (by decide) seedW (by decide) (by decide) (by rfl)

/-- Witness for C2: key pair A exports and reimports losslessly and
the instance on its keys round-trips the plaintext "hi". -/
theorem claim_C2_witness :
    (AsymmetricEncryption.importRSAKeyPairFromBase64
        (AsymmetricEncryption.exportRSAKeyPairToBase64 ⟨pkA, skA⟩).publicKey
        (AsymmetricEncryption.exportRSAKeyPairToBase64 ⟨pkA, skA⟩).privateKey
      = .ok ⟨pkA, skA⟩) ∧
      ((AsymmetricEncryption.mk pkA skA).encrypt zeroHash seedW [104, 105]).bind
        ((AsymmetricEncryption.mk pkA skA).decrypt zeroHash) = .ok [104, 105] :=
  claim_C2 zeroHash zeroHash_good ⟨pkA, skA⟩ (by decide) (by decide) (by decide)
    (by decide) (by decide) (by decide) (by decide) (by decide) (by decide)
    (by decide) rfl (by decide) (by decide) [104, 105] (by decide) (by decide)
    seedW (by decide) (by decide) (by rfl)

/-- Witness for C3: under key pair A, 190 bytes of "a" encrypt and
191 bytes of "a" fail with the too-large error. -/
theorem claim_C3_witness :
    (∃ c, (AsymmetricEncryption.mk pkA skA).encrypt zeroHash seedW
        (List.replicate 190 97) = .ok c) ∧
      (AsymmetricEncryption.mk pkA skA).encrypt zeroHash seedW2
        (List.replicate 191 97) = .error .messageTooLongError :=
  claim_C3 zeroHash ⟨pkA, skA⟩ (by decide) (List.replicate 190 97)
    (List.replicate 191 97) seedW seedW2 (by decide) (by decide)

/-- Witness for C4: under key pair A, encrypting "abc" with two
different seeds gives different ciphertexts and both decrypt back
to "abc". -/
theorem claim_C4_witness :
    ((AsymmetricEncryption.mk pkA skA).encrypt zeroHash seedW [97, 98, 99] ≠
        (AsymmetricEncryption.mk pkA skA).encrypt zeroHash seedW2 [97, 98, 99]) ∧
      (((AsymmetricEncryption.mk pkA skA).encrypt zeroHash seedW [97, 98, 99]).bind
        ((AsymmetricEncryption.mk pkA skA).decrypt zeroHash) = .ok [97, 98, 99]) ∧
      (((AsymmetricEncryption.mk pkA skA).encrypt zeroHash seedW2 [97, 98, 99]).bind
        ((AsymmetricEncryption.mk pkA skA).decrypt zeroHash) = .ok [97, 98, 99]) :=
  claim_C4 zeroHash zeroHash_good ⟨pkA, skA⟩ (by decide) rfl (by decide) (by decide)
    [97, 98, 99] (by decide) (by decide) seedW seedW2 (by decide) (by decide)
    (by decide) (by decide) (by decide) (by rfl) (by rfl)

/-- Witness for C5: on the Base64 encoding of the single byte 0 —
a block of the wrong length, so RSA-OAEP decryption fails — decrypt
under key pair A surfaces the decryption error. -/
theorem claim_C5_witness :
    (AsymmetricEncryption.mk pkA skA).decrypt zeroHash (btoa [0]) =
      .error .decryptionError :=
  (claim_C5 zeroHash ⟨pkA, skA⟩ (btoa [0]) [0]
    (atob_btoa [0] (by decide))).1 (by rfl)

/-- Counterexample refuting C5 as stated: the byte 255 is not valid
UTF-8 (the strict decoder rejects it), the OAEP decryption of its
encryption under key pair A succeeds with exactly that byte, yet
decrypt returns ok with the replacement character U+FFFD instead of
failing with the decryption error. -/
theorem claim_C5_counterexample :
    utf8DecodeStrict [255] = none ∧
      subtleDecrypt zeroHash skA
        (i2osp (powMod (os2ip (oaepPad zeroHash 256 [255] seedW)) pkA.e pkA.n) 256)
        = .ok [255] ∧
      (AsymmetricEncryption.mk pkA skA).decrypt zeroHash
        (btoa (i2osp (powMod (os2ip (oaepPad zeroHash 256 [255] seedW)) pkA.e pkA.n) 256))
        = .ok [65533] :=
  ⟨rfl, by rfl, by rfl⟩

/-- Witness for C6: a ciphertext of "abc" produced under key pair A
fails with the decryption error when decrypted by an instance
holding the independently generated key pair B. -/
theorem claim_C6_witness :
    (AsymmetricEncryption.mk ⟨nB, 65537⟩ skB).decrypt zeroHash
      (btoa (i2osp (powMod (os2ip (oaepPad zeroHash 256 (utf8Encode [97, 98, 99]) seedW))
        pkA.e pkA.n) 256)) = .error .decryptionError :=
  claim_C6 zeroHash ⟨pkA, skA⟩ ⟨⟨nB, 65537⟩, skB⟩ [97, 98, 99] seedW
    (btoa (i2osp (powMod (os2ip (oaepPad zeroHash 256 (utf8Encode [97, 98, 99]) seedW))
      pkA.e pkA.n) 256)) (by rfl)
    (i2osp (powMod (os2ip (oaepPad zeroHash 256 (utf8Encode [97, 98, 99]) seedW))
      pkA.e pkA.n) 256)
    (atob_btoa _ (isBytes_i2osp _ _)) (by rfl)

/-- Counterexample refuting C6 as stated: skSwap is a well-formed
RSA private key distinct from skA (the generation outcome drawing
the same primes in the opposite order), yet it decrypts a
ciphertext produced under key pair A successfully instead of
failing with the decryption error. -/
theorem claim_C6_counterexample :
    skSwap ≠ skA ∧
      ((AsymmetricEncryption.mk pkA skA).encrypt zeroHash seedW [97, 98, 99]).bind
        ((AsymmetricEncryption.mk pkA skSwap).decrypt zeroHash) = .ok [97, 98, 99] :=
  ⟨by decide, by rfl⟩

/-- Witness for C7: the string "!" is not valid Base64, and decrypt
under key pair A fails with the Base64 decoding error. -/
theorem claim_C7_witness :
    (AsymmetricEncryption.mk pkA skA).decrypt zeroHash [33] =
      .error .invalidCharacterError :=
  claim_C7 zeroHash ⟨pkA, skA⟩ [33] (by decide)

/-- Witness for C8: importing key pair A's public key beside the
unrelated key pair B's private key succeeds with no pairing check. -/
theorem claim_C8_witness :
    AsymmetricEncryption.importRSAKeyPairFromBase64
      (btoa (spkiEncode pkA)) (btoa (pkcs8Encode skB)) = .ok ⟨pkA, skB⟩ :=
  claim_C8 pkA skB (by decide) (by decide) (by decide) (by decide) (by decide)
    (by decide) (by decide) (by decide) (by decide) (by decide)
